import Mathlib

/-!
The queue lifecycle engine of managequeue

A shallow embedding of `src/managequeue.c`.

* C strings are lists of characters (`CStr`).
* The program functions (`mkdir_p`, `create_msg_queue_file`, `create_msg_queue`,
  `delete_msg_queue`, `load_parameters`, `load_config`, `main`) are written against an
  arbitrary system-call interface `Kernel σ`; every call they issue is appended to the
  `trace` of the `World` they run in, so "no call is issued" is an observable statement.
* `posix` is one concrete in-memory `Kernel`: a directory tree with inodes, a file
  descriptor table and a System V message queue table, for a privileged caller, without
  symbolic or hard links.
-/

namespace ManageQueue

/-! ## Constants and basic types -/

/-- A NUL-terminated C string, without its terminator. -/
abbrev CStr := List Char

/-- The constant `PATH_MAX` of `linux/limits.h`. -/
def PATH_MAX : Nat := 4096

/-- The constant `NAME_MAX` of `linux/limits.h`. -/
def NAME_MAX : Nat := 255

/-- The constant `INT_MAX` (32-bit `int`). -/
def INT_MAX : Int := 2147483647

/-- The constant `LONG_MAX` (64-bit `long`). -/
def LONG_MAX : Int := 9223372036854775807

/-- The constant `LONG_MIN` (64-bit `long`). -/
def LONG_MIN : Int := -9223372036854775808

/-- The source constant `const short int PROJ_ID = 15`. -/
def PROJ_ID : Nat := 15

/-- The flag `IPC_CREAT` of `sys/ipc.h`. -/
def IPC_CREAT : Nat := 0o1000

/-- The flag `IPC_EXCL` of `sys/ipc.h`. -/
def IPC_EXCL : Nat := 0o2000

/-- The flag `O_RDWR` of `fcntl.h`. -/
def O_RDWR : Nat := 0o2

/-- The flag `O_CREAT` of `fcntl.h`. -/
def O_CREAT : Nat := 0o100

/-- The flag `O_EXCL` of `fcntl.h`. -/
def O_EXCL : Nat := 0o200

/-- The flag `O_TRUNC` of `fcntl.h`. -/
def O_TRUNC : Nat := 0o1000

/-- The mode `S_IRWXU | S_IRGRP | S_IXGRP | S_IROTH | S_IXOTH` that `mkdir_p` passes. -/
def DIR_MODE : Nat := 0o755

/-- The value `(uid_t)-1` / `(gid_t)-1`: the sentinel the source uses for "unset". -/
def UNSET : Nat := 4294967295

/-- Conversion of a C `int` to a 32-bit unsigned value (`mode_t`, flag words). -/
def to_u32 (x : Int) : Nat := (x % 4294967296).toNat

/-- Values of `errno` that the model distinguishes. -/
inductive Errno where
  | EPERM | ENOENT | EBADF | ENOMEM | EACCES | EEXIST | ENOTDIR | EISDIR | EINVAL
  | ENOSPC | EROFS | ENAMETOOLONG | ENOTEMPTY | EBUSY | EIDRM | ERANGE
  deriving DecidableEq, Repr

/-- Outcome of a system call: `ok v` is a non-negative return value, `err e` is the return
value `-1` with `errno = e`. -/
inductive Res (α : Type) where
  | ok (v : α)
  | err (e : Errno)
  deriving DecidableEq, Repr

/-- The `struct ipc_perm` part of a queue's attributes. -/
structure ipc_perm where
  key : Nat
  uid : Nat
  gid : Nat
  cuid : Nat
  cgid : Nat
  mode : Nat
  deriving DecidableEq, Repr

/-- The `struct msqid_ds` of `sys/msg.h` (time stamps and pids left out). -/
structure msqid_ds where
  msg_perm : ipc_perm
  msg_qnum : Nat
  msg_qbytes : Nat
  deriving DecidableEq, Repr

/-- The source's `struct msg_queue_config`. -/
structure msg_queue_config where
  path : CStr
  permissions : Int
  user_id : Nat
  group_id : Nat
  deriving DecidableEq, Repr

/-- One call issued by the program to the operating system or the service manager. -/
inductive Call where
  | mkdir (path : CStr) (mode : Nat)
  | open_ (path : CStr) (flags : Nat) (mode : Nat)
  | fchmod (fd : Nat) (mode : Nat)
  | fchown (fd : Nat) (uid : Nat) (gid : Nat)
  | ftok (path : CStr) (proj : Nat)
  | msgget (key : Nat) (flags : Nat)
  | msgctl_stat (id : Nat)
  | msgctl_set (id : Nat) (buf : msqid_ds)
  | msgctl_rmid (id : Nat)
  | remove (path : CStr)
  | sd_notify (state : CStr)
  deriving DecidableEq, Repr

/-- The system calls (and `ftok`) the program uses, over an arbitrary kernel state `σ`. -/
structure Kernel (σ : Type) where
  mkdir : CStr → Nat → σ → Res Unit × σ
  open_ : CStr → Nat → Nat → σ → Res Nat × σ
  fchmod : Nat → Nat → σ → Res Unit × σ
  fchown : Nat → Nat → Nat → σ → Res Unit × σ
  ftok : CStr → Nat → σ → Res Nat × σ
  msgget : Nat → Nat → σ → Res Nat × σ
  msgctl_stat : Nat → σ → Res msqid_ds × σ
  msgctl_set : Nat → msqid_ds → σ → Res Unit × σ
  msgctl_rmid : Nat → σ → Res Unit × σ
  remove : CStr → σ → Res Unit × σ

/-- The state a program run acts on: the kernel state and the calls issued so far. -/
structure World (σ : Type) where
  st : σ
  trace : List Call

/-! ## String functions of the C library -/

/-- Whether `needle` is an initial segment of `hay`. -/
def starts_with : CStr → CStr → Bool
  | [], _ => true
  | _ :: _, [] => false
  | a :: as, b :: bs => if a = b then starts_with as bs else false

/-- The libc `strstr(hay, needle)`: offset of the first occurrence, `none` for `NULL`. -/
def strstr : CStr → CStr → Option Nat
  | [], needle => if needle = [] then some 0 else none
  | c :: cs, needle =>
    if starts_with needle (c :: cs) then some 0 else (strstr cs needle).map (· + 1)

/-- The libc `strncmp(a, b, n)`: the difference of the first differing characters within the
first `n`, where the end of a string reads as NUL. -/
def strncmp : CStr → CStr → Nat → Int
  | _, _, 0 => 0
  | [], [], _ + 1 => 0
  | [], b :: _, _ + 1 => 0 - (b.toNat : Int)
  | a :: _, [], _ + 1 => (a.toNat : Int)
  | a :: as, b :: bs, n + 1 =>
    if a = b then strncmp as bs n else (a.toNat : Int) - (b.toNat : Int)

/-- The libc `strncat(dst, src, n)`: appends at most `n` characters of `src`. -/
def strncat (dst src : CStr) (n : Nat) : CStr := dst ++ src.take n

/-- Tokens that successive `strtok_r(_, delim, _)` calls return; `acc` is the token being
read. -/
def strtok_aux (delim : Char) : CStr → CStr → List CStr
  | [], acc => if acc = [] then [] else [acc]
  | c :: cs, acc =>
    if c = delim then
      (if acc = [] then strtok_aux delim cs [] else acc :: strtok_aux delim cs [])
    else strtok_aux delim cs (acc ++ [c])

/-- All tokens of `s` for the delimiter string `"/"`, in order. -/
def strtok_all (s : CStr) : List CStr := strtok_aux '/' s []

/-- The libc `isspace` in the C locale. -/
def isspace (c : Char) : Bool :=
  c.toNat = 32 ∨ (9 ≤ c.toNat ∧ c.toNat ≤ 13)

/-- Value of `c` as a digit, for bases up to 36. -/
def digit_val (c : Char) : Option Nat :=
  if 48 ≤ c.toNat ∧ c.toNat ≤ 57 then some (c.toNat - 48)
  else if 97 ≤ c.toNat ∧ c.toNat ≤ 122 then some (c.toNat - 97 + 10)
  else if 65 ≤ c.toNat ∧ c.toNat ≤ 90 then some (c.toNat - 65 + 10)
  else none

/-- Leading white space removed. -/
def skip_space : CStr → CStr
  | [] => []
  | c :: cs => if isspace c then skip_space cs else c :: cs

/-- Value of the longest leading run of base-`base` digits, `none` when there is no digit;
`acc` is the value read so far and `seen` whether a digit was read. -/
def scan_digits (base : Nat) : CStr → Nat → Bool → Option Nat
  | [], acc, seen => if seen then some acc else none
  | c :: cs, acc, seen =>
    match digit_val c with
    | some d =>
      if d < base then scan_digits base cs (acc * base + d) true
      else (if seen then some acc else none)
    | none => if seen then some acc else none

/-- The libc `strtol(nptr, NULL, base)` for `2 ≤ base ≤ 36` without the `0x` prefix rule
(the source only uses base 8), started with `errno = 0`: the value and the `errno` left
behind. The subject sequence is optional white space, an optional sign and the longest run of
digits; what follows is ignored. Out-of-range values are clamped with `ERANGE`. When no digit
is found the value is 0; `einval` says whether the library then reports `EINVAL` (POSIX
allows both, glibc does not, musl does). -/
def strtol (einval : Bool) (nptr : CStr) (base : Nat) : Int × Option Errno :=
  let s := skip_space nptr
  let neg : Bool := s.head? = some '-'
  let rest : CStr := if s.head? = some '-' ∨ s.head? = some '+' then s.tail else s
  match scan_digits base rest 0 false with
  | none => (0, if einval then some Errno.EINVAL else none)
  | some m =>
    if neg then
      (if (m : Int) > -LONG_MIN then (LONG_MIN, some Errno.ERANGE) else (-(m : Int), none))
    else
      (if (m : Int) > LONG_MAX then (LONG_MAX, some Errno.ERANGE) else ((m : Int), none))

/-! ## System-call wrappers that record the call -/

variable {σ : Type}

/-- Call `mkdir(path, mode)`. -/
def sys_mkdir (K : Kernel σ) (path : CStr) (mode : Nat) (w : World σ) : Res Unit × World σ :=
  ((K.mkdir path mode w.st).1, ⟨(K.mkdir path mode w.st).2, w.trace ++ [Call.mkdir path mode]⟩)

/-- Call `open(path, flags, mode)`. -/
def sys_open (K : Kernel σ) (path : CStr) (flags mode : Nat) (w : World σ) :
    Res Nat × World σ :=
  ((K.open_ path flags mode w.st).1,
    ⟨(K.open_ path flags mode w.st).2, w.trace ++ [Call.open_ path flags mode]⟩)

/-- Call `fchmod(fd, mode)`. -/
def sys_fchmod (K : Kernel σ) (fd mode : Nat) (w : World σ) : Res Unit × World σ :=
  ((K.fchmod fd mode w.st).1, ⟨(K.fchmod fd mode w.st).2, w.trace ++ [Call.fchmod fd mode]⟩)

/-- Call `fchown(fd, uid, gid)`. -/
def sys_fchown (K : Kernel σ) (fd uid gid : Nat) (w : World σ) : Res Unit × World σ :=
  ((K.fchown fd uid gid w.st).1,
    ⟨(K.fchown fd uid gid w.st).2, w.trace ++ [Call.fchown fd uid gid]⟩)

/-- Call `ftok(path, proj)`. -/
def sys_ftok (K : Kernel σ) (path : CStr) (proj : Nat) (w : World σ) : Res Nat × World σ :=
  ((K.ftok path proj w.st).1, ⟨(K.ftok path proj w.st).2, w.trace ++ [Call.ftok path proj]⟩)

/-- Call `msgget(key, flags)`. -/
def sys_msgget (K : Kernel σ) (key flags : Nat) (w : World σ) : Res Nat × World σ :=
  ((K.msgget key flags w.st).1,
    ⟨(K.msgget key flags w.st).2, w.trace ++ [Call.msgget key flags]⟩)

/-- Call `msgctl(id, IPC_STAT, &buf)`. -/
def sys_msgctl_stat (K : Kernel σ) (id : Nat) (w : World σ) : Res msqid_ds × World σ :=
  ((K.msgctl_stat id w.st).1, ⟨(K.msgctl_stat id w.st).2, w.trace ++ [Call.msgctl_stat id]⟩)

/-- Call `msgctl(id, IPC_SET, &buf)`. -/
def sys_msgctl_set (K : Kernel σ) (id : Nat) (buf : msqid_ds) (w : World σ) :
    Res Unit × World σ :=
  ((K.msgctl_set id buf w.st).1,
    ⟨(K.msgctl_set id buf w.st).2, w.trace ++ [Call.msgctl_set id buf]⟩)

/-- Call `msgctl(id, IPC_RMID, NULL)`. -/
def sys_msgctl_rmid (K : Kernel σ) (id : Nat) (w : World σ) : Res Unit × World σ :=
  ((K.msgctl_rmid id w.st).1, ⟨(K.msgctl_rmid id w.st).2, w.trace ++ [Call.msgctl_rmid id]⟩)

/-- Call `remove(path)`. -/
def sys_remove (K : Kernel σ) (path : CStr) (w : World σ) : Res Unit × World σ :=
  ((K.remove path w.st).1, ⟨(K.remove path w.st).2, w.trace ++ [Call.remove path]⟩)

/-- Call `sd_notify(0, state)`; its return value is ignored by the source. -/
def sd_notify (state : CStr) (w : World σ) : World σ :=
  ⟨w.st, w.trace ++ [Call.sd_notify state]⟩

/-! ## The program -/

/-- The `while` loop of `mkdir_p` (source lines 169-180): `tmp_path` is the buffer contents,
`tok` the current token and the list holds the tokens `strtok_r` has yet to return. -/
def mkdir_p_loop (K : Kernel σ) : CStr → CStr → List CStr → World σ → Int × World σ
  | _, _, [], w => (0, w)
  | tmp_path, tok, nxt_tok :: rest, w =>
    let t1 := strncat tmp_path tok (PATH_MAX - tmp_path.length - 1)
    let t2 := strncat t1 ['/'] (PATH_MAX - t1.length - 1)
    match sys_mkdir K t2 DIR_MODE w with
    | (Res.ok _, w1) => mkdir_p_loop K t2 nxt_tok rest w1
    | (Res.err e, w1) =>
      if e ≠ Errno.EEXIST then (-1, w1) else mkdir_p_loop K t2 nxt_tok rest w1

/-- The source's `mkdir_p` (lines 150-193); `malloc` and `strdup` are taken to succeed. -/
def mkdir_p (K : Kernel σ) (path : CStr) (w : World σ) : Int × World σ :=
  match strtok_all path with
  | [] => (-1, w)
  | tok :: rest => mkdir_p_loop K (strncat [] ['/'] (PATH_MAX - 1)) tok rest w

/-- The source's `create_msg_queue_file` (lines 96-143). -/
def create_msg_queue_file (K : Kernel σ) (path : CStr) (permissions : Int)
    (user_id group_id : Nat) (w : World σ) : Int × World σ :=
  if (strstr path "..".toList).isSome then (-1, w)
  else if strncmp "/var/run/".toList path 9 ≠ 0 then (-1, w)
  else if path.length > PATH_MAX - 1 then (-1, w)
  else
    match mkdir_p K path w with
    | (r, w1) =>
      if r ≠ 0 then (-1, w1)
      else
        match sys_open K path (O_CREAT ||| O_RDWR) (to_u32 permissions) w1 with
        | (Res.err _, w2) => (-1, w2)
        | (Res.ok fd, w2) =>
          match sys_fchmod K fd (to_u32 permissions) w2 with
          | (Res.err _, w3) => (-1, w3)
          | (Res.ok _, w3) =>
            if user_id ≠ UNSET ∨ group_id ≠ UNSET then
              match sys_fchown K fd user_id group_id w3 with
              | (Res.err _, w4) => (-1, w4)
              | (Res.ok _, w4) => (0, w4)
            else (0, w3)

/-- The updates `create_msg_queue` makes to the buffer read by `IPC_STAT` (lines 70-75). -/
def set_owner (c : msg_queue_config) (buf : msqid_ds) : msqid_ds :=
  let b1 : msqid_ds :=
    if c.user_id ≠ UNSET then { buf with msg_perm := { buf.msg_perm with uid := c.user_id } }
    else buf
  if c.group_id ≠ UNSET then { b1 with msg_perm := { b1.msg_perm with gid := c.group_id } }
  else b1

/-- The source's `create_msg_queue` (lines 39-86). -/
def create_msg_queue (K : Kernel σ) (c : msg_queue_config) (w : World σ) : Int × World σ :=
  match create_msg_queue_file K c.path c.permissions c.user_id c.group_id w with
  | (r, w1) =>
    if r ≠ 0 then (-1, w1)
    else
      match sys_ftok K c.path PROJ_ID w1 with
      | (Res.err _, w2) => (-1, w2)
      | (Res.ok key, w2) =>
        match sys_msgget K key (IPC_CREAT ||| to_u32 c.permissions) w2 with
        | (Res.err _, w3) => (-1, w3)
        | (Res.ok msgqueue_id, w3) =>
          if c.user_id ≠ UNSET ∨ c.group_id ≠ UNSET then
            match sys_msgctl_stat K msgqueue_id w3 with
            | (Res.err _, w4) => (-1, w4)
            | (Res.ok mq_buffer, w4) =>
              match sys_msgctl_set K msgqueue_id (set_owner c mq_buffer) w4 with
              | (Res.err _, w5) => (-1, w5)
              | (Res.ok _, w5) => (0, w5)
          else (0, w3)

/-- The source's `delete_msg_queue` (lines 200-231). -/
def delete_msg_queue (K : Kernel σ) (c : msg_queue_config) (w : World σ) : Int × World σ :=
  match sys_ftok K c.path PROJ_ID w with
  | (Res.err _, w1) => (-1, w1)
  | (Res.ok key, w1) =>
    match sys_msgget K key 0 w1 with
    | (Res.err _, w2) => (-1, w2)
    | (Res.ok msgqueue_id, w2) =>
      match sys_msgctl_rmid K msgqueue_id w2 with
      | (Res.err _, w3) => (-1, w3)
      | (Res.ok _, w3) =>
        match sys_remove K c.path w3 with
        | (Res.err _, w4) => (-1, w4)
        | (Res.ok _, w4) => (0, w4)

/-! ## The directory provisioner as the specification words it -/

/-- The accumulated directory names for the components given, each ending in a slash, the
one that would end in the last component (the leaf) left out; `pre` is the name accumulated
so far. -/
def dir_chain_aux (pre : CStr) : List CStr → List CStr
  | [] => []
  | [_] => []
  | c :: c' :: cs => (pre ++ c ++ ['/']) :: dir_chain_aux (pre ++ c ++ ['/']) (c' :: cs)

/-- The directory names `"/c1/"`, `"/c1/c2/"`, ..., `"/c1/.../c(n-1)/"` for the components
`c1 .. cn`. -/
def dir_chain (comps : List CStr) : List CStr := dir_chain_aux ['/'] comps

/-- Specification §4.2, `ensure_directories`, on the list of directory names: each is created
in turn with mode 0755; "already exists" is tolerated; any other failure aborts at once with
`-1` and nothing is undone. -/
def ensure_directories (K : Kernel σ) : List CStr → World σ → Int × World σ
  | [], w => (0, w)
  | d :: ds, w =>
    match sys_mkdir K d 0o755 w with
    | (Res.ok _, w1) => ensure_directories K ds w1
    | (Res.err e, w1) => if e = Errno.EEXIST then ensure_directories K ds w1 else (-1, w1)

/-- The components given, each followed by a slash, concatenated. -/
def join_slash : List CStr → CStr
  | [] => []
  | c :: cs => c ++ '/' :: join_slash cs

/-- Sum of the token lengths, each counted with one separator. -/
def total_len : List CStr → Nat
  | [] => 0
  | c :: cs => c.length + 1 + total_len cs

/-- The names the loop of `mkdir_p` passes to `mkdir`, in order, with the truncation that the
bounded `strncat` calls apply. -/
def loop_targets : CStr → CStr → List CStr → List CStr
  | _, _, [] => []
  | tmp_path, tok, nxt_tok :: rest =>
    strncat (strncat tmp_path tok (PATH_MAX - tmp_path.length - 1)) ['/']
        (PATH_MAX - (strncat tmp_path tok (PATH_MAX - tmp_path.length - 1)).length - 1) ::
      loop_targets
        (strncat (strncat tmp_path tok (PATH_MAX - tmp_path.length - 1)) ['/']
          (PATH_MAX - (strncat tmp_path tok (PATH_MAX - tmp_path.length - 1)).length - 1))
        nxt_tok rest

/-- A path whose first component has `m` characters: `"/aaa...a/b"`. -/
def long_path (m : Nat) : CStr := '/' :: (List.replicate m 'a' ++ ['/', 'b'])

/-! ## Configuration loading and `main` -/

/-- The C-library and libconfig services the loaders consume. `getopt` gives the net effect of
the `getopt(argc, argv, "c:")` loop of `main`: the argument of the last `-c` option, if any, and
`argv` as the loop leaves it (GNU `getopt` permutes it). `config_read_file` gives, for a
readable and well-formed file, the lookup of its string-valued settings. `strtol_einval` is
the `einval` parameter of `strtol`. -/
structure Libc where
  getpwnam : CStr → Option Nat
  getgrnam : CStr → Option Nat
  config_read_file : CStr → Option (CStr → Option CStr)
  getopt : List CStr → Option CStr × List CStr
  strtol_einval : Bool

/-- The permission check both loaders perform (source lines 258-263 and 326-331):
`errno = 0; permissions = strtol(text, NULL, 8);` rejected when
`(permissions > INT_MAX || permissions < 0) || errno != 0`. -/
def parse_permissions (einval : Bool) (text : CStr) : Option Int :=
  if ((strtol einval text 8).1 > INT_MAX ∨ (strtol einval text 8).1 < 0)
      ∨ (strtol einval text 8).2 ≠ none then none
  else some (strtol einval text 8).1

/-- The identity part of `load_parameters` (lines 337-363), after the permissions. -/
def load_identity (L : Libc) (num_args : Nat) (args : List CStr) (c : msg_queue_config) :
    Int × msg_queue_config :=
  if num_args > 4 then
    match L.getpwnam (args.getD 4 []) with
    | none => (-1, c)
    | some uid =>
      if num_args > 5 then
        match L.getgrnam (args.getD 5 []) with
        | none => (-1, { c with user_id := uid })
        | some gid => (0, { c with user_id := uid, group_id := gid })
      else (0, { c with user_id := uid, group_id := UNSET })
  else
    if num_args > 5 then
      match L.getgrnam (args.getD 5 []) with
      | none => (-1, { c with user_id := UNSET })
      | some gid => (0, { c with user_id := UNSET, group_id := gid })
    else (0, { c with user_id := UNSET, group_id := UNSET })

/-- The source's `load_parameters` (lines 313-375): the return value and the configuration
struct as the call leaves it; `strdup` is taken to succeed. -/
def load_parameters (L : Libc) (num_args : Nat) (args : List CStr) (c : msg_queue_config) :
    Int × msg_queue_config :=
  if num_args > 3 then
    match parse_permissions L.strtol_einval (args.getD 3 []) with
    | none => (-1, { c with path := args.getD 2 [] })
    | some p => load_identity L num_args args { c with path := args.getD 2 [], permissions := p }
  else load_identity L num_args args { c with path := args.getD 2 [] }

/-- The source's `load_config` (lines 234-304): the return value and the configuration struct
as the call leaves it. -/
def load_config (L : Libc) (config : CStr) (c : msg_queue_config) : Int × msg_queue_config :=
  match L.config_read_file config with
  | none => (-1, c)
  | some cfg =>
    match cfg "path".toList with
    | none => (-1, c)
    | some path =>
      match cfg "permissions".toList with
      | none => (-1, c)
      | some perms =>
        match parse_permissions L.strtol_einval perms with
        | none => (-1, c)
        | some permissions =>
          match (match cfg "username".toList with
                 | none => some UNSET
                 | some username => L.getpwnam username) with
          | none => (-1, c)
          | some uid =>
            match (match cfg "group".toList with
                   | none => some UNSET
                   | some group => L.getgrnam group) with
            | none => (-1, { c with user_id := uid })
            | some gid => (0, ⟨path, permissions, uid, gid⟩)

/-- The notification text of `main` for a command word that is neither create nor delete. -/
def MSG_INVALID_COMMAND : CStr := "STOPPING=1\nSTATUS=Invalid command".toList

/-- The source's `main` (lines 390-455): the return value and the world it leaves. `argv` has
`argc` entries. The struct starts with `permissions = 0`, `path = NULL` (here the empty
string) and indeterminate identity fields (here 0); every path that reaches an operation has
set all of them. -/
def main (L : Libc) (K : Kernel σ) (argv : List CStr) (w : World σ) : Int × World σ :=
  let cmd : CStr := argv.getD 1 []
  let conf0 : msg_queue_config := ⟨[], 0, 0, 0⟩
  let loaded : Option msg_queue_config × World σ :=
    match (L.getopt argv).1 with
    | some cfg_path =>
      if (load_config L cfg_path conf0).1 ≠ 0 then (none, w)
      else (some (load_config L cfg_path conf0).2, w)
    | none =>
      if argv.length ≥ 3 then
        (if (load_parameters L argv.length (L.getopt argv).2 conf0).1 ≠ 0 then (none, w)
         else (some (load_parameters L argv.length (L.getopt argv).2 conf0).2, w))
      else (none, sd_notify "STOPPING=1\nSTATUS=Error invalid parameters".toList w)
  match loaded with
  | (none, w1) => (-1, w1)
  | (some c, w1) =>
    if cmd = "create".toList ∨ cmd = "CREATE".toList then
      (if (create_msg_queue K c w1).1 = -1 then
        (-1, sd_notify "STOPPING=1\nSTATUS=Error failed to create queue".toList
          (create_msg_queue K c w1).2)
      else (0, sd_notify "READY=1\nSTATUS=Created Queue".toList (create_msg_queue K c w1).2))
    else if cmd = "delete".toList ∨ cmd = "DELETE".toList then
      (if (delete_msg_queue K c w1).1 ≠ 0 then
        (-1, sd_notify "STOPPING=1\nSTATUS=Error failed to delete queue".toList
          (delete_msg_queue K c w1).2)
      else (0, sd_notify "READY=1\nSTATUS=Queue Deleted".toList (delete_msg_queue K c w1).2))
    else (0, sd_notify MSG_INVALID_COMMAND w1)

/-- Whether `c` is one of the characters `0` to `7`. -/
def is_octal_digit (c : Char) : Bool := decide (48 ≤ c.toNat ∧ c.toNat ≤ 55)

/-- Value of a string of octal digits read as an octal numeral. -/
def oct_val (t : CStr) : Nat := t.foldl (fun a c => a * 8 + (c.toNat - 48)) 0

/-! ## A model of GNU `getopt` for the option string `"c:"` -/

/-- What one option word (the characters after its `-`) says about `-c`. -/
inductive Cluster where
  | plain
  | inline_arg (arg : CStr)
  | next_arg
  deriving DecidableEq, Repr

/-- Scan of one option word: letters other than `c` are unknown options (the `default`
branch of the source's `switch`); `c` takes the rest of the word, or the next word, as its
argument. -/
def scan_cluster : CStr → Cluster
  | [] => Cluster.plain
  | c :: r =>
    if c = 'c' then (if r = [] then Cluster.next_arg else Cluster.inline_arg r)
    else scan_cluster r

/-- Scan of the words after `argv[0]`: the last `-c` argument seen (starting from `cfg`), the
option words in order and the other words in order. -/
def getopt_scan : List CStr → Option CStr → Option CStr × List CStr × List CStr
  | [], cfg => (cfg, [], [])
  | [a], cfg =>
    if a.head? = some '-' ∧ a.length ≥ 2 then (match scan_cluster a.tail with
      | Cluster.inline_arg v => (some v, [a], [])
      | _ => (cfg, [a], []))
    else (cfg, [], [a])
  | a :: b :: rest, cfg =>
    if a = "--".toList then (cfg, [a], b :: rest)
    else if a.head? = some '-' ∧ a.length ≥ 2 then
      (match scan_cluster a.tail with
      | Cluster.next_arg =>
        ((getopt_scan rest (some b)).1, a :: b :: (getopt_scan rest (some b)).2.1,
          (getopt_scan rest (some b)).2.2)
      | Cluster.inline_arg v =>
        ((getopt_scan (b :: rest) (some v)).1, a :: (getopt_scan (b :: rest) (some v)).2.1,
          (getopt_scan (b :: rest) (some v)).2.2)
      | Cluster.plain =>
        ((getopt_scan (b :: rest) cfg).1, a :: (getopt_scan (b :: rest) cfg).2.1,
          (getopt_scan (b :: rest) cfg).2.2))
    else
      ((getopt_scan (b :: rest) cfg).1, (getopt_scan (b :: rest) cfg).2.1,
        a :: (getopt_scan (b :: rest) cfg).2.2)

/-- Net effect of the `getopt(argc, argv, "c:")` loop under GNU `getopt`'s default
permutation. -/
def gnu_getopt (argv : List CStr) : Option CStr × List CStr :=
  match argv with
  | [] => (none, [])
  | prog :: rest =>
    ((getopt_scan rest none).1, prog :: ((getopt_scan rest none).2.1 ++ (getopt_scan rest none).2.2))

/-! ## A concrete kernel: in-memory file system and message queues

The caller is privileged (the program is a privileged set-up step), so no permission check
fails. There are no symbolic links and no hard links. Tables are association lists in which
the first binding of a key is the valid one. -/

/-- First binding of `k` in an association list. -/
def assoc {α β : Type} [DecidableEq α] : List (α × β) → α → Option β
  | [], _ => none
  | (a, b) :: t, k => if a = k then some b else assoc t k

/-- All bindings of `k` removed. -/
def unbind {α β : Type} [DecidableEq α] (k : α) (l : List (α × β)) : List (α × β) :=
  l.filter (fun e => decide (e.1 ≠ k))

/-- A number above every key of the table and above `lo`. -/
def fresh {β : Type} (lo : Nat) : List (Nat × β) → Nat
  | [] => lo + 1
  | e :: t => max (e.1 + 1) (fresh lo t)

/-- File types of the model. -/
inductive Kind where
  | dir
  | reg
  deriving DecidableEq, Repr

/-- An inode: type, mode bits (12 bits), owner, group and contents. -/
structure Inode where
  kind : Kind
  mode : Nat
  uid : Nat
  gid : Nat
  data : List Nat
  deriving DecidableEq, Repr

/-- Kernel state. `names` maps the canonical absolute location of a file (its list of
components; the root is `[]` and always exists) to an inode number, `inodes` maps inode
numbers to inodes, `fds` maps open file descriptors to inode numbers, `qkeys` maps IPC keys
to queue identifiers and `queues` maps queue identifiers to attributes. -/
structure Sys where
  names : List (List CStr × Nat)
  inodes : List (Nat × Inode)
  fds : List (Nat × Nat)
  qkeys : List (Nat × Nat)
  queues : List (Nat × msqid_ds)
  cwd : List CStr
  umask : Nat
  euid : Nat
  egid : Nat
  dev : Nat
  deriving DecidableEq, Repr

/-- Inode number of the root directory. -/
def ROOT_INO : Nat := 2

/-- Default `msg_qbytes` of a new queue (`MSGMNB`). -/
def MSGMNB : Nat := 16384

/-- The inode of the root directory. -/
def root_inode : Inode := ⟨Kind.dir, 0o755, 0, 0, []⟩

/-- Inode number found at a canonical location. -/
def ino_at (s : Sys) (loc : List CStr) : Option Nat :=
  if loc = [] then some ROOT_INO else assoc s.names loc

/-- Inode found at a canonical location. -/
def inode_at (s : Sys) (loc : List CStr) : Option Inode :=
  if loc = [] then some root_inode else (assoc s.names loc).bind (assoc s.inodes)

/-- Whether a directory is found at a canonical location. -/
def dir_at (s : Sys) (loc : List CStr) : Bool :=
  match inode_at s loc with
  | some n => decide (n.kind = Kind.dir)
  | none => false

/-- Walk from directory `cur` through the components given: each must be `.`, `..` or the
name of an existing directory. -/
def walk (s : Sys) : List CStr → List CStr → Res (List CStr)
  | [], cur => Res.ok cur
  | c :: cs, cur =>
    if c.length > NAME_MAX then Res.err Errno.ENAMETOOLONG
    else if c = ['.'] then walk s cs cur
    else if c = ['.', '.'] then
      (if dir_at s cur.dropLast then walk s cs cur.dropLast else Res.err Errno.ENOENT)
    else
      match inode_at s (cur ++ [c]) with
      | none => Res.err Errno.ENOENT
      | some n => if n.kind = Kind.dir then walk s cs (cur ++ [c]) else Res.err Errno.ENOTDIR

/-- What a path names: the canonical location of its last component (which need not exist),
whether that component is an ordinary name (not `.`, `..` or the root), and whether the path
ends in a slash. -/
structure Target where
  loc : List CStr
  named : Bool
  slash : Bool
  deriving DecidableEq, Repr

/-- Path resolution up to the last component. -/
def resolve (s : Sys) (path : CStr) : Res Target :=
  if path = [] then Res.err Errno.ENOENT
  else if path.length ≥ PATH_MAX then Res.err Errno.ENAMETOOLONG
  else if dir_at s (if path.head? = some '/' then [] else s.cwd) = false then
    Res.err Errno.ENOENT
  else
    match walk s (strtok_all path).dropLast (if path.head? = some '/' then [] else s.cwd) with
    | Res.err e => Res.err e
    | Res.ok d =>
      match (strtok_all path).getLast? with
      | none => Res.ok ⟨d, false, true⟩
      | some l =>
        if l = ['.'] ∨ l = ['.', '.'] then
          (match walk s [l] d with
          | Res.err e => Res.err e
          | Res.ok r => Res.ok ⟨r, false, decide (path.getLast? = some '/')⟩)
        else if l.length > NAME_MAX then Res.err Errno.ENAMETOOLONG
        else Res.ok ⟨d ++ [l], true, decide (path.getLast? = some '/')⟩

/-- The bits of `mode` that `umask` does not clear. -/
def apply_umask (mode umask : Nat) : Nat := mode - (mode &&& umask)

/-- The call `mkdir(path, mode)`. -/
def k_mkdir (path : CStr) (mode : Nat) (s : Sys) : Res Unit × Sys :=
  match resolve s path with
  | Res.err e => (Res.err e, s)
  | Res.ok t =>
    if t.named = false then (Res.err Errno.EEXIST, s)
    else
      match inode_at s t.loc with
      | some _ => (Res.err Errno.EEXIST, s)
      | none =>
        (Res.ok (),
          { s with
            names := (t.loc, fresh ROOT_INO s.inodes) :: s.names
            inodes := (fresh ROOT_INO s.inodes,
              ⟨Kind.dir, apply_umask (mode % 0o2000) s.umask, s.euid, s.egid, []⟩) :: s.inodes })

/-- The call `open(path, flags, mode)`; the descriptor is never closed by the program. -/
def k_open (path : CStr) (flags mode : Nat) (s : Sys) : Res Nat × Sys :=
  match resolve s path with
  | Res.err e => (Res.err e, s)
  | Res.ok t =>
    match ino_at s t.loc, inode_at s t.loc with
    | some i, some n =>
      if n.kind = Kind.dir then
        (if flags % 4 ≠ 0 ∨ flags &&& O_CREAT ≠ 0 then (Res.err Errno.EISDIR, s)
         else (Res.ok (fresh 2 s.fds), { s with fds := (fresh 2 s.fds, i) :: s.fds }))
      else if t.slash then (Res.err Errno.ENOTDIR, s)
      else if flags &&& O_CREAT ≠ 0 ∧ flags &&& O_EXCL ≠ 0 then (Res.err Errno.EEXIST, s)
      else if flags &&& O_TRUNC ≠ 0 ∧ flags % 4 ≠ 0 then
        (Res.ok (fresh 2 s.fds),
          { s with fds := (fresh 2 s.fds, i) :: s.fds
                   inodes := (i, { n with data := [] }) :: s.inodes })
      else (Res.ok (fresh 2 s.fds), { s with fds := (fresh 2 s.fds, i) :: s.fds })
    | _, _ =>
      if flags &&& O_CREAT = 0 then (Res.err Errno.ENOENT, s)
      else if t.slash ∨ t.named = false then (Res.err Errno.EISDIR, s)
      else
        (Res.ok (fresh 2 s.fds),
          { s with
            names := (t.loc, fresh ROOT_INO s.inodes) :: s.names
            inodes := (fresh ROOT_INO s.inodes,
              ⟨Kind.reg, apply_umask (mode % 0o10000) s.umask, s.euid, s.egid, []⟩) :: s.inodes
            fds := (fresh 2 s.fds, fresh ROOT_INO s.inodes) :: s.fds })

/-- The inode after `fchmod`: the twelve mode bits are replaced. -/
def chmod_inode (n : Inode) (mode : Nat) : Inode := { n with mode := mode % 0o10000 }

/-- The call `fchmod(fd, mode)`. -/
def k_fchmod (fd mode : Nat) (s : Sys) : Res Unit × Sys :=
  match assoc s.fds fd with
  | none => (Res.err Errno.EBADF, s)
  | some i =>
    match assoc s.inodes i with
    | none => (Res.err Errno.EBADF, s)
    | some n => (Res.ok (), { s with inodes := (i, chmod_inode n mode) :: s.inodes })

/-- Mode of a regular file after a change of ownership: set-user-ID is cleared, and
set-group-ID too when the file is group-executable. -/
def chown_mode (m : Nat) : Nat := if (m / 8) % 2 = 1 then m % 0o2000 else m % 0o4000

/-- The inode after `fchown`: an id of `(uid_t)-1` leaves that id unchanged. -/
def chown_inode (n : Inode) (uid gid : Nat) : Inode :=
  { n with
    uid := if uid = UNSET then n.uid else uid
    gid := if gid = UNSET then n.gid else gid
    mode := if n.kind = Kind.reg then chown_mode n.mode else n.mode }

/-- The call `fchown(fd, uid, gid)`. -/
def k_fchown (fd uid gid : Nat) (s : Sys) : Res Unit × Sys :=
  match assoc s.fds fd with
  | none => (Res.err Errno.EBADF, s)
  | some i =>
    match assoc s.inodes i with
    | none => (Res.err Errno.EBADF, s)
    | some n => (Res.ok (), { s with inodes := (i, chown_inode n uid gid) :: s.inodes })

/-- The key glibc's `ftok` builds from the inode number, the device number and `proj`. -/
def ftok_key (ino dev proj : Nat) : Nat :=
  (proj % 256) * 16777216 + (dev % 256) * 65536 + ino % 65536

/-- The call `ftok(path, proj)`: `stat` of the path, then `ftok_key`. -/
def k_ftok (path : CStr) (proj : Nat) (s : Sys) : Res Nat × Sys :=
  match resolve s path with
  | Res.err e => (Res.err e, s)
  | Res.ok t =>
    match ino_at s t.loc, inode_at s t.loc with
    | some i, some n =>
      if n.kind = Kind.reg ∧ t.slash then (Res.err Errno.ENOTDIR, s)
      else (Res.ok (ftok_key i s.dev proj), s)
    | _, _ => (Res.err Errno.ENOENT, s)

/-- The queue registered under a key: its identifier and attributes. -/
def queue_of_key (s : Sys) (key : Nat) : Option (Nat × msqid_ds) :=
  match assoc s.qkeys key with
  | none => none
  | some id =>
    match assoc s.queues id with
    | none => none
    | some q => some (id, q)

/-- The call `msgget(key, flags)` for `key ≠ IPC_PRIVATE`. -/
def k_msgget (key flags : Nat) (s : Sys) : Res Nat × Sys :=
  match queue_of_key s key with
  | some (id, _) =>
    if flags &&& IPC_CREAT ≠ 0 ∧ flags &&& IPC_EXCL ≠ 0 then (Res.err Errno.EEXIST, s)
    else (Res.ok id, s)
  | none =>
    if flags &&& IPC_CREAT = 0 then (Res.err Errno.ENOENT, s)
    else
      (Res.ok (fresh 0 s.queues),
        { s with
          qkeys := (key, fresh 0 s.queues) :: s.qkeys
          queues := (fresh 0 s.queues,
            ⟨⟨key, s.euid, s.egid, s.euid, s.egid, flags % 0o1000⟩, 0, MSGMNB⟩) :: s.queues })

/-- The call `msgctl(id, IPC_STAT, buf)`. -/
def k_msgctl_stat (id : Nat) (s : Sys) : Res msqid_ds × Sys :=
  match assoc s.queues id with
  | none => (Res.err Errno.EINVAL, s)
  | some q => (Res.ok q, s)

/-- The attributes after `IPC_SET`: owner, group, the nine permission bits and `msg_qbytes`
are taken from `buf`. -/
def ipc_set (q buf : msqid_ds) : msqid_ds :=
  { q with
    msg_perm := { q.msg_perm with
      uid := buf.msg_perm.uid
      gid := buf.msg_perm.gid
      mode := buf.msg_perm.mode % 0o1000 }
    msg_qbytes := buf.msg_qbytes }

/-- The call `msgctl(id, IPC_SET, buf)`. -/
def k_msgctl_set (id : Nat) (buf : msqid_ds) (s : Sys) : Res Unit × Sys :=
  match assoc s.queues id with
  | none => (Res.err Errno.EINVAL, s)
  | some q =>
    if buf.msg_perm.uid = UNSET ∨ buf.msg_perm.gid = UNSET then (Res.err Errno.EINVAL, s)
    else (Res.ok (), { s with queues := (id, ipc_set q buf) :: s.queues })

/-- The call `msgctl(id, IPC_RMID, NULL)`. -/
def k_msgctl_rmid (id : Nat) (s : Sys) : Res Unit × Sys :=
  match assoc s.queues id with
  | none => (Res.err Errno.EINVAL, s)
  | some q =>
    (Res.ok (), { s with queues := unbind id s.queues, qkeys := unbind q.msg_perm.key s.qkeys })

/-- Whether some existing file lies directly in the directory at `loc`. -/
def has_children (s : Sys) (loc : List CStr) : Bool :=
  s.names.any (fun e => decide (e.1 ≠ [] ∧ e.1.dropLast = loc) && (inode_at s e.1).isSome)

/-- The call `remove(path)`: `unlink` for a file, `rmdir` for a directory. -/
def k_remove (path : CStr) (s : Sys) : Res Unit × Sys :=
  match resolve s path with
  | Res.err e => (Res.err e, s)
  | Res.ok t =>
    match inode_at s t.loc with
    | none => (Res.err Errno.ENOENT, s)
    | some n =>
      if n.kind = Kind.reg then
        (if t.slash then (Res.err Errno.ENOTDIR, s)
         else (Res.ok (), { s with names := unbind t.loc s.names }))
      else if t.named = false then (Res.err Errno.EINVAL, s)
      else if has_children s t.loc then (Res.err Errno.ENOTEMPTY, s)
      else if t.loc = s.cwd then (Res.err Errno.EBUSY, s)
      else (Res.ok (), { s with names := unbind t.loc s.names })

/-- The concrete kernel. -/
def posix : Kernel Sys where
  mkdir := k_mkdir
  open_ := k_open
  fchmod := k_fchmod
  fchown := k_fchown
  ftok := k_ftok
  msgget := k_msgget
  msgctl_stat := k_msgctl_stat
  msgctl_set := k_msgctl_set
  msgctl_rmid := k_msgctl_rmid
  remove := k_remove

/-- The regular file a path names, if any. -/
def file_at (s : Sys) (path : CStr) : Option Inode :=
  match resolve s path with
  | Res.err _ => none
  | Res.ok t =>
    match inode_at s t.loc with
    | some n => if n.kind = Kind.reg ∧ t.slash = false then some n else none
    | none => none

/-- Whether a path names a directory. -/
def is_dir (s : Sys) (path : CStr) : Bool :=
  match resolve s path with
  | Res.err _ => false
  | Res.ok t => dir_at s t.loc

/-- The key `ftok(path, PROJ_ID)` yields in state `s`, if the call succeeds. -/
def key_of (s : Sys) (path : CStr) : Option Nat :=
  match (k_ftok path PROJ_ID s).1 with
  | Res.ok k => some k
  | Res.err _ => none

/-- The names `mkdir_p(path)` passes to `mkdir`, in order. -/
def mkdir_targets (path : CStr) : List CStr :=
  match strtok_all path with
  | [] => []
  | tok :: rest => loop_targets (strncat [] ['/'] (PATH_MAX - 1)) tok rest

/-- Whether the configuration asks for an owner or a group. -/
def wants_owner (c : msg_queue_config) : Bool :=
  decide (c.user_id ≠ UNSET ∨ c.group_id ≠ UNSET)

/-- The inode `create_msg_queue_file` leaves, from the inode `open` found or created. -/
def file_final (c : msg_queue_config) (n : Inode) : Inode :=
  if wants_owner c then
    chown_inode (chmod_inode n (to_u32 c.permissions)) c.user_id c.group_id
  else chmod_inode n (to_u32 c.permissions)

/-- The attributes `create_msg_queue` leaves, from the attributes `msgget` found or
created. -/
def queue_final (c : msg_queue_config) (q : msqid_ds) : msqid_ds :=
  if wants_owner c then ipc_set q (set_owner c q) else q

/-! ## Relations between kernel states used in the proofs -/

/-- Every file of `s` is found in `s'` at the same place with the same type, and the working
directory is the same. -/
def ext (s s' : Sys) : Prop :=
  s'.cwd = s.cwd ∧
    ∀ p n, inode_at s p = some n → ∃ n', inode_at s' p = some n' ∧ n'.kind = n.kind

/-- The path `q` resolves in `s` and something exists at the place it names, so that
`mkdir(q)` fails with `EEXIST`. -/
def mkdir_exists (s : Sys) (q : CStr) : Prop :=
  ∃ t, resolve s q = Res.ok t ∧ (t.named = false ∨ (inode_at s t.loc).isSome = true)

/-- The path names the regular file with inode number `i` and inode `n`. -/
def backing (s : Sys) (path : CStr) (i : Nat) (n : Inode) : Prop :=
  ∃ t, resolve s path = Res.ok t ∧ t.slash = false ∧ t.loc ≠ [] ∧
    assoc s.names t.loc = some i ∧ assoc s.inodes i = some n ∧ n.kind = Kind.reg

/-- The two states have the same files, descriptors and process attributes. -/
def same_fs (s s' : Sys) : Prop :=
  s'.names = s.names ∧ s'.inodes = s.inodes ∧ s'.fds = s.fds ∧ s'.cwd = s.cwd ∧
    s'.dev = s.dev ∧ s'.euid = s.euid ∧ s'.egid = s.egid ∧ s'.umask = s.umask

/-- The two states have the same message queues and process attributes. -/
def same_ipc (s s' : Sys) : Prop :=
  s'.qkeys = s.qkeys ∧ s'.queues = s.queues ∧ s'.dev = s.dev ∧ s'.euid = s.euid ∧
    s'.egid = s.egid ∧ s'.umask = s.umask ∧ s'.cwd = s.cwd

/-! ## Example states -/

/-- A system with an empty root directory and no queues, run by root with umask 022. -/
def sys0 : Sys := ⟨[], [], [], [], [], [], 0o22, 0, 0, 1⟩

/-- A world over `sys0` in which no call has been issued. -/
def world0 : World Sys := ⟨sys0, []⟩

/-- An account database with the user and the group `svc`, a configuration file reader that
finds no file, GNU `getopt` and the glibc `strtol`. -/
def libc0 : Libc where
  getpwnam := fun n => if n = "svc".toList then some 990 else none
  getgrnam := fun n => if n = "svc".toList then some 991 else none
  config_read_file := fun _ => none
  getopt := gnu_getopt
  strtol_einval := false

/-- The configuration `main` starts from. -/
def conf0 : msg_queue_config := ⟨[], 0, 0, 0⟩

/-- A system in which the regular file `/tmp/queue` exists together with the message queue
registered under its key. -/
def sys_tmp : Sys :=
  { names := [(["tmp".toList, "queue".toList], 4), (["tmp".toList], 3)]
    inodes := [(4, ⟨Kind.reg, 0o644, 0, 0, []⟩), (3, ⟨Kind.dir, 0o755, 0, 0, []⟩)]
    fds := []
    qkeys := [(ftok_key 4 1 PROJ_ID, 1)]
    queues := [(1, ⟨⟨ftok_key 4 1 PROJ_ID, 0, 0, 0, 0, 0o644⟩, 0, MSGMNB⟩)]
    cwd := []
    umask := 0o22
    euid := 0
    egid := 0
    dev := 1 }

/-- A configuration naming `/tmp/queue`, outside the policy root. -/
def cfg_tmp : msg_queue_config := ⟨"/tmp/queue".toList, 0o644, UNSET, UNSET⟩

/-- The scenario of the specification: `/var/run/app/queue`, mode 0660, user and group
`svc`. -/
def cfg_svc : msg_queue_config := ⟨"/var/run/app/queue".toList, 0o660, 990, 991⟩

/-- A configuration whose permissions 0o2644 carry the `IPC_EXCL` bit. -/
def cfg_excl : msg_queue_config := ⟨"/var/run/q".toList, 0o2644, UNSET, UNSET⟩

/-! ## Lemmas on the string functions -/

theorem char_toNat_inj {a b : Char} (h : a.toNat = b.toNat) : a = b := by
  apply Char.ext
  apply UInt32.ext
  exact h

theorem starts_with_iff (needle hay : CStr) : starts_with needle hay = true ↔ needle <+: hay := by
  induction needle generalizing hay with
  | nil => simp [starts_with]
  | cons a as ih =>
    cases hay with
    | nil => simp [starts_with]
    | cons b bs =>
      by_cases hab : a = b
      · subst hab
        simp [starts_with, ih, List.cons_prefix_cons]
      · simp [starts_with, hab, List.cons_prefix_cons]

theorem strstr_isSome_iff (hay needle : CStr) : (strstr hay needle).isSome = true ↔ needle <:+: hay := by
  induction hay with
  | nil =>
    by_cases h : needle = []
    · simp [strstr, h]
    · simp [strstr, h]
  | cons c cs ih =>
    rw [List.infix_cons_iff, ← ih, ← starts_with_iff]
    by_cases h : starts_with needle (c :: cs) = true
    · simp [strstr, h]
    · simp [strstr, h]

theorem strncmp_eq_zero_iff (a b : CStr) (hnul : ∀ c ∈ a, c.toNat ≠ 0) :
    strncmp a b a.length = 0 ↔ a <+: b := by
  induction a generalizing b with
  | nil => simp [strncmp]
  | cons x xs ih =>
    have hx : x.toNat ≠ 0 := hnul x (List.mem_cons_self _ _)
    have hxs : ∀ c ∈ xs, c.toNat ≠ 0 := fun c hc => hnul c (List.mem_cons_of_mem _ hc)
    cases b with
    | nil =>
      simp only [List.length_cons, strncmp]
      constructor
      · intro h; exact absurd (by exact_mod_cast h) hx
      · intro h; simp at h
    | cons y ys =>
      by_cases hxy : x = y
      · subst hxy
        simp [strncmp, ih ys hxs, List.cons_prefix_cons]
      · have hne : (x.toNat : Int) - (y.toNat : Int) ≠ 0 := by
          intro h
          apply hxy
          apply char_toNat_inj
          omega
        simp [strncmp, hxy, hne, List.cons_prefix_cons]

theorem strncmp_policy_root (path : CStr) :
    strncmp "/var/run/".toList path 9 = 0 ↔ "/var/run/".toList <+: path := by
  have h := strncmp_eq_zero_iff "/var/run/".toList path (by decide)
  exact h

/-! ## Path validation in `create_msg_queue_file` -/

theorem create_msg_queue_file_reject (K : Kernel σ) (path : CStr) (permissions : Int)
    (u g : Nat) (w : World σ) (h : "..".toList <:+: path ∨ ¬ "/var/run/".toList <+: path) :
    create_msg_queue_file K path permissions u g w = (-1, w) := by
  unfold create_msg_queue_file
  rcases h with h | h
  · rw [if_pos ((strstr_isSome_iff _ _).2 h)]
  · by_cases h1 : (strstr path "..".toList).isSome = true
    · rw [if_pos h1]
    · rw [if_neg h1, if_pos]
      rwa [Ne, strncmp_policy_root]

/-- C2: a path that contains `..` or does not start with `/var/run/` makes
`create_msg_queue_file`, and with it `create_msg_queue`, return -1 in an unchanged world:
the kernel state is untouched and no call at all has been added to the trace. -/
theorem create_rejects_before_any_call (K : Kernel σ) (c : msg_queue_config) (w : World σ)
    (h : "..".toList <:+: c.path ∨ ¬ "/var/run/".toList <+: c.path) :
    create_msg_queue_file K c.path c.permissions c.user_id c.group_id w = (-1, w) ∧
      create_msg_queue K c w = (-1, w) := by
  have h1 := create_msg_queue_file_reject K c.path c.permissions c.user_id c.group_id w h
  refine ⟨h1, ?_⟩
  unfold create_msg_queue
  rw [h1]
  simp

theorem create_rejects_before_any_call_witness :
    ("..".toList <:+: "/var/run/../etc/passwd".toList ∧
      create_msg_queue posix ⟨"/var/run/../etc/passwd".toList, 0o644, UNSET, UNSET⟩ world0
        = (-1, world0)) ∧
    (¬ "/var/run/".toList <+: "/tmp/queue".toList ∧
      create_msg_queue posix ⟨"/tmp/queue".toList, 0o644, UNSET, UNSET⟩ world0
        = (-1, world0)) :=
  ⟨⟨by decide,
    (create_rejects_before_any_call posix ⟨"/var/run/../etc/passwd".toList, 0o644, UNSET, UNSET⟩
      world0 (Or.inl (by decide))).2⟩,
   ⟨by decide,
    (create_rejects_before_any_call posix ⟨"/tmp/queue".toList, 0o644, UNSET, UNSET⟩
      world0 (Or.inr (by decide))).2⟩⟩

/-! ## `mkdir_p` against `ensure_directories` -/

theorem strtok_aux_ne_nil (d : Char) (s acc : CStr) : ∀ c ∈ strtok_aux d s acc, c ≠ [] := by
  induction s generalizing acc with
  | nil =>
    intro c hc
    by_cases h : acc = []
    · simp [strtok_aux, h] at hc
    · simp [strtok_aux, h] at hc
      rw [hc]; exact h
  | cons x xs ih =>
    intro c hc
    unfold strtok_aux at hc
    by_cases hx : x = d
    · by_cases h : acc = []
      · simp [hx, h] at hc
        exact ih [] c hc
      · simp [hx, h] at hc
        rcases hc with hc | hc
        · rw [hc]; exact h
        · exact ih [] c hc
    · simp [hx] at hc
      exact ih _ c hc

theorem strtok_aux_total (d : Char) (s acc : CStr) :
    total_len (strtok_aux d s acc) ≤ s.length + acc.length + 1 := by
  induction s generalizing acc with
  | nil =>
    by_cases h : acc = []
    · simp [strtok_aux, h, total_len]
    · simp [strtok_aux, h, total_len]
  | cons x xs ih =>
    unfold strtok_aux
    by_cases hx : x = d
    · by_cases h : acc = []
      · have := ih []
        simp [hx, h] at this ⊢
        omega
      · have := ih []
        simp [hx, h, total_len] at this ⊢
        omega
    · have := ih (acc ++ [x])
      simp [hx] at this ⊢
      omega

theorem mkdir_p_loop_eq (K : Kernel σ) (rest : List CStr) :
    ∀ (tmp tok : CStr) (w : World σ), (∀ c ∈ rest, c ≠ []) →
      tmp.length + total_len (tok :: rest) ≤ PATH_MAX + 1 →
      mkdir_p_loop K tmp tok rest w = ensure_directories K (dir_chain_aux tmp (tok :: rest)) w := by
  induction rest with
  | nil => intro tmp tok w _ _; simp [mkdir_p_loop, dir_chain_aux, ensure_directories]
  | cons nxt rest ih =>
    intro tmp tok w hne hlen
    have hnxt : nxt ≠ [] := hne nxt (List.mem_cons_self _ _)
    have hnl : 1 ≤ nxt.length := List.length_pos.2 hnxt
    have hrest : ∀ c ∈ rest, c ≠ [] := fun c hc => hne c (List.mem_cons_of_mem _ hc)
    simp only [total_len, PATH_MAX] at hlen
    have e1 : strncat tmp tok (PATH_MAX - tmp.length - 1) = tmp ++ tok := by
      unfold strncat PATH_MAX
      rw [List.take_of_length_le (by omega)]
    have e2 : strncat (tmp ++ tok) ['/'] (PATH_MAX - (tmp ++ tok).length - 1) = tmp ++ tok ++ ['/'] := by
      unfold strncat PATH_MAX
      rw [List.take_of_length_le (by simp; omega)]
    have hih := fun w1 => ih (tmp ++ tok ++ ['/']) nxt w1 hrest (by
      simp only [total_len, PATH_MAX, List.length_append, List.length_singleton]; omega)
    unfold mkdir_p_loop
    simp only [e1, e2, dir_chain_aux, ensure_directories, DIR_MODE]
    rcases hres : sys_mkdir K (tmp ++ tok ++ ['/']) 493 w with ⟨r, w1⟩
    cases r with
    | ok v => simp only [hih]
    | err e =>
      by_cases he : e = Errno.EEXIST
      · subst he
        simp only [ne_eq, not_true_eq_false, if_false, if_true, hih]
      · simp [he]

theorem mkdir_p_eq (K : Kernel σ) (path : CStr) (w : World σ) (hlen : path.length < PATH_MAX)
    (hne : strtok_all path ≠ []) :
    mkdir_p K path w = ensure_directories K (dir_chain (strtok_all path)) w := by
  unfold mkdir_p dir_chain
  have htot := strtok_aux_total '/' path []
  have hnn := strtok_aux_ne_nil '/' path []
  unfold strtok_all at hne ⊢
  cases hts : strtok_aux '/' path [] with
  | nil => exact absurd hts hne
  | cons tok rest =>
    rw [hts] at htot hnn
    simp only
    have e0 : strncat [] ['/'] (PATH_MAX - 1) = ['/'] := by simp [strncat, PATH_MAX]
    rw [e0]
    apply mkdir_p_loop_eq
    · intro c hc; exact hnn c (List.mem_cons_of_mem _ hc)
    · simp only [PATH_MAX, List.length_nil, List.length_singleton] at hlen htot ⊢
      omega

theorem ensure_directories_trace (K : Kernel σ) (ds : List CStr) :
    ∀ w : World σ, ∃ j, j ≤ ds.length ∧
      (ensure_directories K ds w).2.trace
        = w.trace ++ (ds.take j).map (fun d => Call.mkdir d 0o755) ∧
      ((ensure_directories K ds w).1 = 0 ∧ j = ds.length ∨
        (ensure_directories K ds w).1 = -1 ∧ 0 < j) := by
  induction ds with
  | nil => intro w; exact ⟨0, by simp [ensure_directories]⟩
  | cons d ds ih =>
    intro w
    unfold ensure_directories
    rcases hres : sys_mkdir K d 493 w with ⟨r, w1⟩
    have htr : w1.trace = w.trace ++ [Call.mkdir d 493] := by
      have := congrArg (fun p => p.2.trace) hres
      simpa [sys_mkdir] using this.symm
    cases r with
    | ok v =>
      obtain ⟨j, hj, ht, hr⟩ := ih w1
      refine ⟨j + 1, by simpa using hj, ?_, ?_⟩
      · simp [ht, htr]
      · rcases hr with hr | hr
        · left; simpa using hr
        · right; simp [hr.1]
    | err e =>
      by_cases he : e = Errno.EEXIST
      · obtain ⟨j, hj, ht, hr⟩ := ih w1
        refine ⟨j + 1, by simpa using hj, ?_, ?_⟩
        · simp [he, ht, htr]
        · rcases hr with hr | hr
          · left; simpa [he] using hr
          · right; simp [he, hr.1]
      · exact ⟨1, by simp, by simp [he, htr], by simp [he]⟩
theorem dir_chain_aux_length (cs : List CStr) :
    ∀ pre : CStr, cs ≠ [] → (dir_chain_aux pre cs).length + 1 = cs.length := by
  induction cs with
  | nil => intro pre h; exact absurd rfl h
  | cons c cs ih =>
    intro pre _
    cases cs with
    | nil => simp [dir_chain_aux]
    | cons c' cs =>
      have := ih (pre ++ c ++ ['/']) (by simp)
      simp [dir_chain_aux] at this ⊢
      omega

theorem dir_chain_length (cs : List CStr) (h : cs ≠ []) :
    (dir_chain cs).length + 1 = cs.length := dir_chain_aux_length cs _ h

theorem strtok_aux_token (d : Char) (t rest : CStr) (ht : d ∉ t) :
    ∀ acc : CStr, acc ++ t ≠ [] →
      strtok_aux d (t ++ d :: rest) acc = (acc ++ t) :: strtok_aux d rest [] := by
  induction t with
  | nil =>
    intro acc hacc
    simp at hacc
    simp [strtok_aux, hacc]
  | cons x xs ih =>
    intro acc _
    have hx : x ≠ d := by
      intro h; apply ht; simp [h]
    have hxs : d ∉ xs := by
      intro h; apply ht; simp [h]
    have := ih hxs (acc ++ [x]) (by simp)
    rw [List.cons_append, strtok_aux, if_neg hx, this]
    simp

theorem strtok_all_long_path (m : Nat) (hm : 0 < m) :
    strtok_all (long_path m) = [List.replicate m 'a', ['b']] := by
  unfold strtok_all long_path
  have h := strtok_aux_token '/' (List.replicate m 'a') ['b'] (by
    intro h; have := List.eq_of_mem_replicate h; exact absurd this (by decide)) [] (by
    simp; omega)
  rw [strtok_aux]
  simp only [if_true]
  rw [h]
  simp [strtok_aux]

theorem mkdir_p_long_path_trace (K : Kernel σ) (w : World σ) (m k : Nat)
    (hk : k + 2 = PATH_MAX) (hm : k ≤ m) :
    (mkdir_p K (long_path m) w).2.trace
      = w.trace ++ [Call.mkdir ('/' :: List.replicate k 'a') 0o755] := by
  unfold PATH_MAX at hk
  unfold mkdir_p
  rw [strtok_all_long_path m (by omega)]
  have e0 : strncat [] ['/'] (PATH_MAX - 1) = ['/'] := by simp [strncat, PATH_MAX]
  have e1 : strncat ['/'] (List.replicate m 'a') (PATH_MAX - ['/'].length - 1)
      = '/' :: List.replicate k 'a' := by
    simp only [strncat, PATH_MAX, List.length_singleton, List.take_replicate]
    rw [Nat.min_eq_left (by omega)]
    have : 4096 - 1 - 1 = k := by omega
    rw [this]
    rfl
  have e2 : strncat ('/' :: List.replicate k 'a') ['/']
      (PATH_MAX - ('/' :: List.replicate k 'a').length - 1) = '/' :: List.replicate k 'a' := by
    simp only [strncat, PATH_MAX, List.length_cons, List.length_replicate]
    have : 4096 - (k + 1) - 1 = 0 := by omega
    rw [this]
    simp
  simp only [e0]
  unfold mkdir_p_loop
  simp only [e1, e2, DIR_MODE]
  rcases hres : sys_mkdir K ('/' :: List.replicate k 'a') 493 w with ⟨r, w1⟩
  have htr : w1.trace = w.trace ++ [Call.mkdir ('/' :: List.replicate k 'a') 493] := by
    have := congrArg (fun p => p.2.trace) hres
    simpa [sys_mkdir] using this.symm
  cases r with
  | ok v => simp [mkdir_p_loop, htr]
  | err e =>
    by_cases he : e = Errno.EEXIST
    · simp [mkdir_p_loop, htr, he]
    · simp [mkdir_p_loop, htr, he]

theorem truncated_name_not_in_chain (m k j : Nat) (hkm : k < m) :
    [Call.mkdir ('/' :: List.replicate k 'a') 0o755]
      ≠ (['/' :: (List.replicate m 'a' ++ ['/'])].take j).map (fun d => Call.mkdir d 0o755) := by
  intro hj
  cases j with
  | zero => simp at hj
  | succ j =>
    have h1 : '/' :: List.replicate k 'a' = '/' :: (List.replicate m 'a' ++ ['/']) := by
      simpa using hj
    have := congrArg List.length h1
    simp at this
    omega

/-- C10 (amended): for a path shorter than `PATH_MAX` with at least one component, `mkdir_p`
is `ensure_directories` on the accumulated directory names of all components but the leaf:
it issues `mkdir` with mode 0755 for an initial run of them, in order, and nothing else; it
returns 0 after the whole run, with "already exists" tolerated, and -1 right after the first
other failure, without any further call. -/
theorem mkdir_p_creates_dir_chain (K : Kernel σ) (path : CStr) (w : World σ)
    (hlen : path.length < PATH_MAX) (hne : strtok_all path ≠ []) :
    mkdir_p K path w = ensure_directories K (dir_chain (strtok_all path)) w ∧
    (dir_chain (strtok_all path)).length + 1 = (strtok_all path).length ∧
    ∃ j, j ≤ (dir_chain (strtok_all path)).length ∧
      (mkdir_p K path w).2.trace
        = w.trace ++ ((dir_chain (strtok_all path)).take j).map (fun d => Call.mkdir d 0o755) ∧
      ((mkdir_p K path w).1 = 0 ∧ j = (dir_chain (strtok_all path)).length ∨
        (mkdir_p K path w).1 = -1 ∧ 0 < j) := by
  have h := mkdir_p_eq K path w hlen hne
  refine ⟨h, ?_, ?_⟩
  · exact dir_chain_length _ hne
  · rw [h]
    exact ensure_directories_trace K _ w

theorem mkdir_p_creates_dir_chain_witness :
    "/var/run/app/queue".toList.length < PATH_MAX ∧
    strtok_all "/var/run/app/queue".toList ≠ [] ∧
    dir_chain (strtok_all "/var/run/app/queue".toList)
      = ["/var/".toList, "/var/run/".toList, "/var/run/app/".toList] ∧
    mkdir_p posix "/var/run/app/queue".toList world0
      = ensure_directories posix (dir_chain (strtok_all "/var/run/app/queue".toList)) world0 :=
  ⟨by decide, by decide, by decide,
    (mkdir_p_creates_dir_chain posix "/var/run/app/queue".toList world0
      (by decide) (by decide)).1⟩

/-- C10 as stated fails for a path of `PATH_MAX` characters or more: for `"/aaa...a/b"` with
4096 letters `a`, the one directory name to create is `"/aaa...a/"`, but `mkdir_p` issues
`mkdir` for the first 4095 characters of the path. -/
theorem mkdir_p_long_path_truncated :
    strtok_all (long_path 4096) = [List.replicate 4096 'a', ['b']] ∧
    dir_chain (strtok_all (long_path 4096)) = ['/' :: (List.replicate 4096 'a' ++ ['/'])] ∧
    (mkdir_p posix (long_path 4096) world0).2.trace
      = [Call.mkdir ('/' :: List.replicate 4094 'a') 0o755] ∧
    ¬ ∃ j, (mkdir_p posix (long_path 4096) world0).2.trace
        = world0.trace ++
          ((dir_chain (strtok_all (long_path 4096))).take j).map (fun d => Call.mkdir d 0o755) := by
  have h1 := strtok_all_long_path 4096 (by omega)
  have h2 : dir_chain (strtok_all (long_path 4096))
      = ['/' :: (List.replicate 4096 'a' ++ ['/'])] := by
    rw [h1]; rfl
  have h3 : (mkdir_p posix (long_path 4096) world0).2.trace
      = [Call.mkdir ('/' :: List.replicate 4094 'a') 0o755] :=
    mkdir_p_long_path_trace posix world0 4096 4094 rfl (by omega)
  refine ⟨h1, h2, h3, ?_⟩
  rintro ⟨j, hj⟩
  rw [h3, h2] at hj
  exact truncated_name_not_in_chain 4096 4094 j (by omega) hj

/-! ## The permissions parser -/

theorem digit_val_octal (c : Char) (h : is_octal_digit c = true) :
    digit_val c = some (c.toNat - 48) ∧ c.toNat - 48 < 8 := by
  simp only [is_octal_digit, decide_eq_true_eq] at h
  unfold digit_val
  rw [if_pos (by omega)]
  exact ⟨rfl, by omega⟩

theorem digit_val_not_octal (c : Char) (h : is_octal_digit c = false) :
    digit_val c = none ∨ ∃ d, digit_val c = some d ∧ ¬ d < 8 := by
  simp only [is_octal_digit, decide_eq_false_iff_not] at h
  unfold digit_val
  split
  · right; exact ⟨_, rfl, by omega⟩
  · split
    · right; exact ⟨_, rfl, by omega⟩
    · split
      · right; exact ⟨_, rfl, by omega⟩
      · left; rfl

theorem scan_digits_octal_run (t : CStr) (ht : ∀ c ∈ t, is_octal_digit c = true) (rest : CStr) :
    ∀ (acc : Nat) (seen : Bool), t ≠ [] ∨ seen = true →
      scan_digits 8 (t ++ rest) acc seen
        = scan_digits 8 rest (t.foldl (fun a c => a * 8 + (c.toNat - 48)) acc) true := by
  induction t with
  | nil =>
    intro acc seen h
    rcases h with h | h
    · exact absurd rfl h
    · simp [h]
  | cons x xs ih =>
    intro acc seen _
    have hx := digit_val_octal x (ht x (List.mem_cons_self _ _))
    have hxs : ∀ c ∈ xs, is_octal_digit c = true := fun c hc => ht c (List.mem_cons_of_mem _ hc)
    rw [List.cons_append, scan_digits, hx.1]
    simp only [hx.2, if_true]
    rw [ih hxs _ true (Or.inr rfl)]
    rfl

theorem scan_digits_stop (rest : CStr) (acc : Nat)
    (h : ∀ c, rest.head? = some c → is_octal_digit c = false) :
    scan_digits 8 rest acc true = some acc := by
  cases rest with
  | nil => simp [scan_digits]
  | cons c cs =>
    have hc := digit_val_not_octal c (h c rfl)
    rcases hc with hc | ⟨d, hc, hd⟩
    · simp [scan_digits, hc]
    · simp [scan_digits, hc, hd]

theorem scan_digits_ge (s : CStr) :
    ∀ (acc : Nat) (seen : Bool) (m : Nat), scan_digits 8 s acc seen = some m → acc ≤ m := by
  induction s with
  | nil =>
    intro acc seen m h
    cases seen <;> simp [scan_digits] at h
    omega
  | cons c cs ih =>
    intro acc seen m h
    unfold scan_digits at h
    cases hd : digit_val c with
    | none =>
      rw [hd] at h
      cases seen <;> simp at h
      omega
    | some d =>
      rw [hd] at h
      by_cases hlt : d < 8
      · simp only [hlt, if_true] at h
        have := ih _ _ _ h
        omega
      · simp only [hlt, if_false] at h
        cases seen <;> simp at h
        omega

theorem scan_digits_seen (s : CStr) : ∀ acc : Nat, ∃ m, scan_digits 8 s acc true = some m := by
  induction s with
  | nil => intro acc; exact ⟨acc, by simp [scan_digits]⟩
  | cons c cs ih =>
    intro acc
    unfold scan_digits
    cases digit_val c with
    | none => exact ⟨acc, by simp⟩
    | some d =>
      by_cases hlt : d < 8
      · simp only [hlt, if_true]; exact ih _
      · exact ⟨acc, by simp [hlt]⟩

theorem skip_space_octal (t rest : CStr) (hne : t ≠ [])
    (ht : ∀ c ∈ t, is_octal_digit c = true) :
    skip_space (t ++ rest) = t ++ rest ∧ (t ++ rest).head? ≠ some '-' ∧
      (t ++ rest).head? ≠ some '+' := by
  cases t with
  | nil => exact absurd rfl hne
  | cons x xs =>
    have hx := ht x (List.mem_cons_self _ _)
    simp only [is_octal_digit, decide_eq_true_eq] at hx
    have hsp : isspace x = false := by
      simp only [isspace, decide_eq_false_iff_not]
      omega
    refine ⟨by simp [skip_space, hsp], ?_, ?_⟩
    · simp only [List.cons_append, List.head?_cons, ne_eq, Option.some.injEq]
      intro h; rw [h] at hx; revert hx; decide
    · simp only [List.cons_append, List.head?_cons, ne_eq, Option.some.injEq]
      intro h; rw [h] at hx; revert hx; decide

/-- The parser accepts an octal numeral of value at most `INT_MAX` followed by anything that
does not start with an octal digit, with the numeral's value. -/
theorem parse_permissions_octal_then_rest (einval : Bool) (t rest : CStr) (hne : t ≠ [])
    (ht : ∀ c ∈ t, is_octal_digit c = true)
    (hrest : ∀ c, rest.head? = some c → is_octal_digit c = false)
    (hval : (oct_val t : Int) ≤ INT_MAX) :
    parse_permissions einval (t ++ rest) = some (oct_val t : Int) := by
  have hs := skip_space_octal t rest hne ht
  have hscan : scan_digits 8 (t ++ rest) 0 false = some (oct_val t) := by
    rw [scan_digits_octal_run t ht rest 0 false (Or.inl hne), scan_digits_stop _ _ hrest]
    rfl
  have hst : strtol einval (t ++ rest) 8 = ((oct_val t : Int), none) := by
    unfold strtol
    simp only [hs.1, hs.2.1, hs.2.2, or_self, if_false, hscan, decide_False]
    simp only [INT_MAX, LONG_MAX] at hval ⊢
    simp
    omega
  unfold parse_permissions
  rw [hst]
  simp only [INT_MAX] at hval ⊢
  simp
  omega

/-- The parser rejects a minus sign followed by an octal numeral of nonzero value, whatever
follows. -/
theorem parse_permissions_negative (einval : Bool) (t rest : CStr) (hne : t ≠ [])
    (ht : ∀ c ∈ t, is_octal_digit c = true) (hval : 0 < oct_val t) :
    parse_permissions einval ('-' :: (t ++ rest)) = none := by
  have hsk : skip_space ('-' :: (t ++ rest)) = '-' :: (t ++ rest) := by
    have : isspace '-' = false := by decide
    simp [skip_space, this]
  obtain ⟨m, hm⟩ : ∃ m, scan_digits 8 (t ++ rest) 0 false = some m := by
    rw [scan_digits_octal_run t ht rest 0 false (Or.inl hne)]
    exact scan_digits_seen rest _
  have hpos : 0 < m := by
    have h1 := scan_digits_ge (t ++ rest) 0 false m hm
    rw [scan_digits_octal_run t ht rest 0 false (Or.inl hne)] at hm
    have h2 := scan_digits_ge rest _ true m hm
    unfold oct_val at hval
    omega
  unfold parse_permissions strtol
  simp only [hsk, List.head?_cons, List.tail_cons, true_or, if_true, hm, decide_True]
  by_cases hbig : (m : Int) > -LONG_MIN
  · simp [hbig]
  · simp only [hbig, if_false]
    simp
    omega

/-! ## Claims on the loaders, `main` and `delete_msg_queue` -/

/-- C4 (amended): the permissions parser accepts `"644"` with value 420 and rejects `"-1"`
and every minus sign followed by an octal numeral of nonzero value; it accepts an octal
numeral of value at most `INT_MAX` followed by any text that does not start with an octal
digit, with the numeral's value; a text without a leading octal digit, such as `"999"`, is
read as 0 and rejected only if the C library reports `EINVAL` for it. `load_parameters` stores
420 for the argument `"644"`. -/
theorem parse_permissions_behaviour (einval : Bool) :
    parse_permissions einval "644".toList = some 420 ∧
    parse_permissions einval "-1".toList = none ∧
    (∀ t rest : CStr, t ≠ [] → (∀ c ∈ t, is_octal_digit c = true) → 0 < oct_val t →
      parse_permissions einval ('-' :: (t ++ rest)) = none) ∧
    (∀ t rest : CStr, t ≠ [] → (∀ c ∈ t, is_octal_digit c = true) →
      (∀ c, rest.head? = some c → is_octal_digit c = false) → (oct_val t : Int) ≤ INT_MAX →
      parse_permissions einval (t ++ rest) = some (oct_val t : Int)) ∧
    parse_permissions einval "999".toList = (if einval then none else some 0) ∧
    (∀ (L : Libc) (prog cmd path : CStr) (c : msg_queue_config),
      L.strtol_einval = einval →
      (load_parameters L 4 [prog, cmd, path, "644".toList] c).1 = 0 ∧
      (load_parameters L 4 [prog, cmd, path, "644".toList] c).2.permissions = 420) := by
  refine ⟨?_, ?_, ?_, ?_, ?_, ?_⟩
  · cases einval <;> decide
  · cases einval <;> decide
  · intro t rest hne ht hv
    exact parse_permissions_negative einval t rest hne ht hv
  · intro t rest hne ht hr hv
    exact parse_permissions_octal_then_rest einval t rest hne ht hr hv
  · cases einval <;> decide
  · intro L prog cmd path c hL
    have h : parse_permissions L.strtol_einval ['6', '4', '4'] = some 420 := by
      rw [hL]; cases einval <;> decide
    unfold load_parameters
    simp [h, load_identity]

theorem parse_permissions_behaviour_witness :
    ("17".toList ≠ [] ∧ (∀ c ∈ "17".toList, is_octal_digit c = true) ∧
      (∀ c, " rw".toList.head? = some c → is_octal_digit c = false) ∧
      (oct_val "17".toList : Int) ≤ INT_MAX) ∧
    parse_permissions false ("17".toList ++ " rw".toList) = some (oct_val "17".toList : Int) :=
  ⟨⟨by decide, by decide, by decide, by decide⟩,
    (parse_permissions_behaviour false).2.2.2.1 "17".toList " rw".toList
      (by decide) (by decide) (by decide) (by decide)⟩

/-- C4 as stated fails: `"6449"` is not an octal numeral, yet the parser accepts it with value
420 under either `errno` convention, and with the glibc convention it accepts `"999"` as 0. -/
theorem parse_permissions_accepts_non_octal :
    (∃ c ∈ "6449".toList, is_octal_digit c = false) ∧
    parse_permissions false "6449".toList = some 420 ∧
    parse_permissions true "6449".toList = some 420 ∧
    parse_permissions false "999".toList = some 0 := by
  decide

theorem parse_permissions_range (einval : Bool) (text : CStr) (p : Int)
    (h : parse_permissions einval text = some p) : 0 ≤ p ∧ p ≤ INT_MAX := by
  unfold parse_permissions at h
  split at h
  · exact absurd h (by simp)
  · rename_i hc
    simp only [Option.some.injEq] at h
    rw [← h]
    simp only [not_or, not_lt, gt_iff_lt] at hc
    exact ⟨hc.1.2, hc.1.1⟩

theorem load_identity_permissions (L : Libc) (n : Nat) (args : List CStr)
    (c : msg_queue_config) : (load_identity L n args c).2.permissions = c.permissions := by
  unfold load_identity
  split
  · split
    · rfl
    · split
      · split <;> rfl
      · rfl
  · split
    · split <;> rfl
    · rfl

/-- C5 (amended): a permissions value stored by a successful `load_parameters` or
`load_config` lies between 0 and `INT_MAX` (the struct `main` passes in starts at 0); the
value is not confined to the nine permission bits. -/
theorem loaded_permissions_range (L : Libc) (num_args : Nat) (args : List CStr)
    (config : CStr) (c : msg_queue_config)
    (hc : 0 ≤ c.permissions ∧ c.permissions ≤ INT_MAX) :
    ((load_parameters L num_args args c).1 = 0 →
      0 ≤ (load_parameters L num_args args c).2.permissions ∧
        (load_parameters L num_args args c).2.permissions ≤ INT_MAX) ∧
    ((load_config L config c).1 = 0 →
      0 ≤ (load_config L config c).2.permissions ∧
        (load_config L config c).2.permissions ≤ INT_MAX) := by
  constructor
  · intro _
    unfold load_parameters
    split
    · split
      · exact hc
      · rename_i p hp
        rw [load_identity_permissions]
        exact parse_permissions_range _ _ _ hp
    · rw [load_identity_permissions]
      exact hc
  · intro h
    unfold load_config at h ⊢
    split
    · exact hc
    · split
      · exact hc
      · split
        · exact hc
        · split
          · exact hc
          · rename_i p hp
            split
            · exact hc
            · split
              · exact hc
              · exact parse_permissions_range _ _ _ hp

theorem loaded_permissions_range_witness :
    (0 ≤ conf0.permissions ∧ conf0.permissions ≤ INT_MAX) ∧
    (load_parameters libc0 4
      ["managequeue".toList, "create".toList, "/var/run/q".toList, "644".toList] conf0).1 = 0 ∧
    0 ≤ (load_parameters libc0 4
      ["managequeue".toList, "create".toList, "/var/run/q".toList, "644".toList]
        conf0).2.permissions ∧
    (load_parameters libc0 4
      ["managequeue".toList, "create".toList, "/var/run/q".toList, "644".toList]
        conf0).2.permissions ≤ INT_MAX :=
  ⟨by decide, by decide,
    ((loaded_permissions_range libc0 4
      ["managequeue".toList, "create".toList, "/var/run/q".toList, "644".toList] [] conf0
      (by decide)).1 (by decide))⟩

/-- C5 as stated fails: `load_parameters` succeeds on the permissions text `"2644"` and
stores 1444 (0o2644), above 0o777; OR-ed into the `msgget` flags this value sets the
`IPC_EXCL` bit. -/
theorem loaded_permissions_exceed_mode_bits :
    load_parameters libc0 4
      ["managequeue".toList, "create".toList, "/var/run/q".toList, "2644".toList] conf0
      = (0, ⟨"/var/run/q".toList, 1444, UNSET, UNSET⟩) ∧
    ¬ ((1444 : Int) ≤ 0o777) ∧
    (IPC_CREAT ||| to_u32 1444) &&& IPC_EXCL ≠ 0 := by
  decide
/-- C3 (the code at the failing input): with three arguments and a command word that is none
of `create`, `CREATE`, `delete`, `DELETE`, `main` loads the parameters, sends the stopping
notification "Invalid command", issues no other call, and returns 0. -/
theorem main_invalid_command_returns_zero (L : Libc) (K : Kernel σ) (prog cmd path : CStr)
    (w : World σ) (hopt : L.getopt [prog, cmd, path] = (none, [prog, cmd, path]))
    (hcmd : cmd ≠ "create".toList ∧ cmd ≠ "CREATE".toList ∧ cmd ≠ "delete".toList ∧
      cmd ≠ "DELETE".toList) :
    main L K [prog, cmd, path] w = (0, sd_notify MSG_INVALID_COMMAND w) := by
  obtain ⟨h1, h2, h3, h4⟩ := hcmd
  unfold main
  simp only [hopt, List.length_cons, List.length_nil, List.getD_cons_succ, List.getD_cons_zero]
  simp only [load_parameters, load_identity]
  simp only [gt_iff_lt, Nat.lt_irrefl, if_false, ne_eq, not_true_eq_false, ge_iff_le,
    Nat.le_refl, if_true, Nat.reduceAdd, Nat.reduceLT]
  rw [if_neg (fun h => h.elim h1 h2), if_neg (fun h => h.elim h3 h4)]

theorem main_invalid_command_returns_zero_witness :
    (libc0.getopt ["managequeue".toList, "frobnicate".toList, "/var/run/q".toList]
      = (none, ["managequeue".toList, "frobnicate".toList, "/var/run/q".toList])) ∧
    main libc0 posix ["managequeue".toList, "frobnicate".toList, "/var/run/q".toList] world0
      = (0, sd_notify MSG_INVALID_COMMAND world0) :=
  ⟨by decide,
    main_invalid_command_returns_zero libc0 posix "managequeue".toList "frobnicate".toList
      "/var/run/q".toList world0 (by decide) (by decide)⟩

/-- C1 (the code at the failing input): `/tmp/queue` does not start with `/var/run/`, so
`create_msg_queue` rejects it in an unchanged world; yet `delete_msg_queue` on the same
configuration returns 0, and afterwards the file `/tmp/queue` and the queue under its key are
gone. -/
theorem delete_msg_queue_skips_validation :
    ¬ "/var/run/".toList <+: cfg_tmp.path ∧
    (create_msg_queue posix cfg_tmp ⟨sys_tmp, []⟩).1 = -1 ∧
    (create_msg_queue posix cfg_tmp ⟨sys_tmp, []⟩).2.st = sys_tmp ∧
    (create_msg_queue posix cfg_tmp ⟨sys_tmp, []⟩).2.trace = [] ∧
    (file_at sys_tmp cfg_tmp.path).isSome = true ∧
    key_of sys_tmp cfg_tmp.path = some (ftok_key 4 1 PROJ_ID) ∧
    (queue_of_key sys_tmp (ftok_key 4 1 PROJ_ID)).isSome = true ∧
    (delete_msg_queue posix cfg_tmp ⟨sys_tmp, []⟩).1 = 0 ∧
    file_at (delete_msg_queue posix cfg_tmp ⟨sys_tmp, []⟩).2.st cfg_tmp.path = none ∧
    queue_of_key (delete_msg_queue posix cfg_tmp ⟨sys_tmp, []⟩).2.st (ftok_key 4 1 PROJ_ID)
      = none ∧
    (delete_msg_queue posix cfg_tmp ⟨sys_tmp, []⟩).2.st ≠ sys_tmp := by
  decide

/-! ## The concrete kernel: tables -/

theorem assoc_cons {α β : Type} [DecidableEq α] (a : α) (b : β) (l : List (α × β)) (k : α) :
    assoc ((a, b) :: l) k = if a = k then some b else assoc l k := rfl

theorem assoc_unbind {α β : Type} [DecidableEq α] (k k' : α) (l : List (α × β)) :
    assoc (unbind k l) k' = if k' = k then none else assoc l k' := by
  induction l with
  | nil => simp [unbind, assoc]
  | cons e l ih =>
    obtain ⟨a, b⟩ := e
    unfold unbind at ih ⊢
    by_cases ha : a = k
    · subst ha
      by_cases hk : k' = a
      · subst hk
        simpa [List.filter, assoc] using ih
      · have hk2 : ¬ a = k' := fun h => hk h.symm
        simpa [List.filter, assoc, hk, hk2] using ih
    · by_cases hk : k' = k
      · subst hk
        simpa [List.filter, assoc, ha] using ih
      · by_cases hak : a = k'
        · simp [List.filter, assoc, ha, hak, hk]
        · simpa [List.filter, assoc, ha, hak, hk] using ih

theorem assoc_lt_fresh {β : Type} (lo : Nat) (l : List (Nat × β)) (k : Nat) (v : β)
    (h : assoc l k = some v) : k < fresh lo l := by
  induction l with
  | nil => simp [assoc] at h
  | cons e l ih =>
    obtain ⟨a, b⟩ := e
    rw [assoc_cons] at h
    unfold fresh
    by_cases ha : a = k
    · subst ha
      simp only [lt_max_iff]
      left; omega
    · simp only [ha, if_false] at h
      have := ih h
      simp only [lt_max_iff]
      right; exact this

theorem assoc_fresh {β : Type} (lo : Nat) (l : List (Nat × β)) : assoc l (fresh lo l) = none := by
  cases h : assoc l (fresh lo l) with
  | none => rfl
  | some v => exact absurd (assoc_lt_fresh lo l _ v h) (lt_irrefl _)

/-! ## The concrete kernel: files under state changes -/

theorem ext_refl (s : Sys) : ext s s := ⟨rfl, fun _ n h => ⟨n, h, rfl⟩⟩

theorem ext_trans {s1 s2 s3 : Sys} (h12 : ext s1 s2) (h23 : ext s2 s3) : ext s1 s3 := by
  refine ⟨h23.1.trans h12.1, ?_⟩
  intro p n hn
  obtain ⟨n2, h2, k2⟩ := h12.2 p n hn
  obtain ⟨n3, h3, k3⟩ := h23.2 p n2 h2
  exact ⟨n3, h3, k3.trans k2⟩

theorem dir_at_ext {s s' : Sys} (h : ext s s') (p : List CStr) (hd : dir_at s p = true) :
    dir_at s' p = true := by
  unfold dir_at at hd ⊢
  cases hn : inode_at s p with
  | none => rw [hn] at hd; exact absurd hd (by simp)
  | some n =>
    rw [hn] at hd
    obtain ⟨n', h1, h2⟩ := h.2 p n hn
    rw [h1]
    simp only [decide_eq_true_eq] at hd ⊢
    rw [h2, hd]

theorem walk_ext {s s' : Sys} (h : ext s s') (cs : List CStr) :
    ∀ (cur r : List CStr), walk s cs cur = Res.ok r → walk s' cs cur = Res.ok r := by
  induction cs with
  | nil => intro cur r hw; simpa [walk] using hw
  | cons c cs ih =>
    intro cur r hw
    unfold walk at hw ⊢
    by_cases h1 : c.length > NAME_MAX
    · simp [h1] at hw
    · simp only [h1, if_false] at hw ⊢
      by_cases h2 : c = ['.']
      · simp only [h2, if_true] at hw ⊢
        exact ih _ _ hw
      · simp only [h2, if_false] at hw ⊢
        by_cases h3 : c = ['.', '.']
        · simp only [h3, if_true] at hw ⊢
          by_cases h4 : dir_at s cur.dropLast = true
          · simp only [h4, if_true] at hw
            simp only [dir_at_ext h _ h4, if_true]
            exact ih _ _ hw
          · simp [h4] at hw
        · simp only [h3, if_false] at hw ⊢
          cases hn : inode_at s (cur ++ [c]) with
          | none => simp [hn] at hw
          | some n =>
            obtain ⟨n', e1, e2⟩ := h.2 _ n hn
            simp only [hn] at hw
            simp only [e1, e2]
            by_cases hk : n.kind = Kind.dir
            · simp only [hk, if_true] at hw ⊢
              exact ih _ _ hw
            · simp [hk] at hw

theorem resolve_ext {s s' : Sys} (h : ext s s') (path : CStr) (t : Target)
    (hr : resolve s path = Res.ok t) : resolve s' path = Res.ok t := by
  unfold resolve at hr ⊢
  by_cases h1 : path = []
  · simp [h1] at hr
  · simp only [h1, if_false] at hr ⊢
    by_cases h2 : path.length ≥ PATH_MAX
    · simp [h2] at hr
    · simp only [h2, if_false] at hr ⊢
      rw [h.1]
      by_cases h3 : dir_at s (if path.head? = some '/' then [] else s.cwd) = false
      · simp [h3] at hr
      · simp only [h3] at hr
        have h3' : dir_at s' (if path.head? = some '/' then [] else s.cwd) = true :=
          dir_at_ext h _ (by simpa using h3)
        simp only [h3']
        cases hw : walk s (strtok_all path).dropLast (if path.head? = some '/' then [] else s.cwd) with
        | err e => simp [hw] at hr
        | ok d =>
          simp only [hw] at hr
          simp only [walk_ext h _ _ _ hw]
          cases hl : (strtok_all path).getLast? with
          | none => simpa [hl] using hr
          | some l =>
            simp only [hl] at hr ⊢
            by_cases h4 : l = ['.'] ∨ l = ['.', '.']
            · simp only [h4, if_true] at hr ⊢
              cases hw2 : walk s [l] d with
              | err e => simp [hw2] at hr
              | ok r =>
                simp only [hw2] at hr
                simp only [walk_ext h _ _ _ hw2]
                exact hr
            · simp only [h4, if_false] at hr ⊢
              exact hr

theorem mkdir_exists_ext {s s' : Sys} (h : ext s s') (q : CStr) (hq : mkdir_exists s q) :
    mkdir_exists s' q := by
  obtain ⟨t, ht, hx⟩ := hq
  refine ⟨t, resolve_ext h q t ht, ?_⟩
  rcases hx with hx | hx
  · left; exact hx
  · right
    cases hn : inode_at s t.loc with
    | none => simp [hn] at hx
    | some n =>
      obtain ⟨n', e1, _⟩ := h.2 _ n hn
      simp [e1]

theorem inode_at_add (s s' : Sys) (loc : List CStr) (nd : Inode) (hloc : loc ≠ [])
    (hn : s'.names = (loc, fresh ROOT_INO s.inodes) :: s.names)
    (hi : s'.inodes = (fresh ROOT_INO s.inodes, nd) :: s.inodes) :
    inode_at s' loc = some nd ∧ ∀ p n, inode_at s p = some n → p ≠ loc → inode_at s' p = some n := by
  constructor
  · unfold inode_at
    simp [hloc, hn, hi, assoc_cons]
  · intro p n hp hne
    unfold inode_at at hp ⊢
    by_cases hp0 : p = []
    · simpa [hp0] using hp
    · simp only [hp0, if_false] at hp ⊢
      have hne' : ¬ loc = p := fun h => hne h.symm
      rw [hn, assoc_cons, if_neg hne']
      cases hj : assoc s.names p with
      | none => simp [hj] at hp
      | some j =>
        simp only [hj, Option.some_bind] at hp ⊢
        rw [hi, assoc_cons]
        have : ¬ fresh ROOT_INO s.inodes = j := by
          intro h
          have := assoc_lt_fresh ROOT_INO s.inodes j n hp
          omega
        simp only [this, if_false]
        exact hp

theorem ext_of_add (s s' : Sys) (loc : List CStr) (nd : Inode) (hloc : loc ≠ [])
    (hnone : inode_at s loc = none) (hcwd : s'.cwd = s.cwd)
    (hn : s'.names = (loc, fresh ROOT_INO s.inodes) :: s.names)
    (hi : s'.inodes = (fresh ROOT_INO s.inodes, nd) :: s.inodes) : ext s s' := by
  refine ⟨hcwd, ?_⟩
  intro p n hp
  have hne : p ≠ loc := by
    intro h; rw [h, hnone] at hp; exact absurd hp (by simp)
  exact ⟨n, (inode_at_add s s' loc nd hloc hn hi).2 p n hp hne, rfl⟩

theorem inode_at_update (s s' : Sys) (i : Nat) (n' : Inode) (hn : s'.names = s.names)
    (hi : s'.inodes = (i, n') :: s.inodes) (p : List CStr) :
    inode_at s' p
      = if p ≠ [] ∧ assoc s.names p = some i then some n' else inode_at s p := by
  unfold inode_at
  by_cases hp0 : p = []
  · simp [hp0]
  · simp only [hp0, if_false, ne_eq, not_false_eq_true, true_and, hn]
    cases hj : assoc s.names p with
    | none => simp
    | some j =>
      simp only [Option.some_bind, hi, assoc_cons, Option.some.injEq]
      by_cases hji : j = i
      · subst hji; simp
      · have : ¬ i = j := fun h => hji h.symm
        simp [hji, this]

theorem ext_of_update (s s' : Sys) (i : Nat) (n n' : Inode) (hcwd : s'.cwd = s.cwd)
    (hn : s'.names = s.names) (hi : s'.inodes = (i, n') :: s.inodes)
    (ha : assoc s.inodes i = some n) (hk : n'.kind = n.kind) : ext s s' := by
  refine ⟨hcwd, ?_⟩
  intro p m hp
  rw [inode_at_update s s' i n' hn hi p]
  by_cases hc : p ≠ [] ∧ assoc s.names p = some i
  · rw [if_pos hc]
    refine ⟨n', rfl, ?_⟩
    have : inode_at s p = some n := by
      unfold inode_at
      simp [hc.1, hc.2, ha]
    rw [this] at hp
    simp only [Option.some.injEq] at hp
    rw [hk, hp]
  · rw [if_neg hc]
    exact ⟨m, hp, rfl⟩

theorem walk_err_ne_eexist (s : Sys) (cs : List CStr) :
    ∀ (cur : List CStr) (e : Errno), walk s cs cur = Res.err e → e ≠ Errno.EEXIST := by
  induction cs with
  | nil => intro cur e h; simp [walk] at h
  | cons c cs ih =>
    intro cur e h
    unfold walk at h
    split at h
    · simp only [Res.err.injEq] at h; rw [← h]; decide
    · split at h
      · exact ih _ _ h
      · split at h
        · split at h
          · exact ih _ _ h
          · simp only [Res.err.injEq] at h; rw [← h]; decide
        · split at h
          · simp only [Res.err.injEq] at h; rw [← h]; decide
          · split at h
            · exact ih _ _ h
            · simp only [Res.err.injEq] at h; rw [← h]; decide

theorem resolve_err_ne_eexist (s : Sys) (path : CStr) (e : Errno)
    (h : resolve s path = Res.err e) : e ≠ Errno.EEXIST := by
  unfold resolve at h
  by_cases h1 : path = []
  · simp only [h1, if_true, Res.err.injEq] at h; rw [← h]; decide
  · simp only [h1, if_false] at h
    by_cases h2 : path.length ≥ PATH_MAX
    · simp only [h2, if_true, Res.err.injEq] at h; rw [← h]; decide
    · simp only [h2, if_false] at h
      by_cases h3 : dir_at s (if path.head? = some '/' then [] else s.cwd) = false
      · simp only [h3, if_true, Res.err.injEq] at h; rw [← h]; decide
      · rw [if_neg h3] at h
        cases hw : walk s (strtok_all path).dropLast (if path.head? = some '/' then [] else s.cwd) with
        | err e' =>
          simp only [hw, Bool.false_eq_true, if_false, Res.err.injEq] at h
          rw [← h]
          exact walk_err_ne_eexist _ _ _ _ hw
        | ok d =>
          simp only [hw, Bool.false_eq_true, if_false] at h
          cases hl : (strtok_all path).getLast? with
          | none => simp [hl] at h
          | some l =>
            simp only [hl] at h
            by_cases h4 : l = ['.'] ∨ l = ['.', '.']
            · simp only [h4, if_true] at h
              cases hw2 : walk s [l] d with
              | err e' =>
                simp only [hw2, Res.err.injEq] at h
                rw [← h]
                exact walk_err_ne_eexist _ _ _ _ hw2
              | ok r => simp [hw2] at h
            · simp only [h4, if_false] at h
              by_cases h5 : l.length > NAME_MAX
              · simp only [h5, if_true, Res.err.injEq] at h; rw [← h]; decide
              · simp [h5] at h

/-- What a successful resolution says. -/
theorem resolve_inv (s : Sys) (path : CStr) (t : Target) (h : resolve s path = Res.ok t) :
    path ≠ [] ∧ path.length < PATH_MAX ∧
    dir_at s (if path.head? = some '/' then [] else s.cwd) = true ∧
    ∃ d, walk s (strtok_all path).dropLast (if path.head? = some '/' then [] else s.cwd)
        = Res.ok d ∧
      (((strtok_all path).getLast? = none ∧ t = ⟨d, false, true⟩) ∨
       (∃ l, (strtok_all path).getLast? = some l ∧
          (((l = ['.'] ∨ l = ['.', '.']) ∧ ∃ r, walk s [l] d = Res.ok r ∧
              t = ⟨r, false, decide (path.getLast? = some '/')⟩) ∨
           (¬ (l = ['.'] ∨ l = ['.', '.']) ∧ l.length ≤ NAME_MAX ∧
              t = ⟨d ++ [l], true, decide (path.getLast? = some '/')⟩)))) := by
  unfold resolve at h
  by_cases h1 : path = []
  · simp [h1] at h
  · simp only [h1, if_false] at h
    by_cases h2 : path.length ≥ PATH_MAX
    · simp [h2] at h
    · simp only [h2, if_false] at h
      by_cases h3 : dir_at s (if path.head? = some '/' then [] else s.cwd) = false
      · simp [h3] at h
      · rw [if_neg h3] at h
        refine ⟨h1, by omega, by simpa using h3, ?_⟩
        cases hw : walk s (strtok_all path).dropLast (if path.head? = some '/' then [] else s.cwd) with
        | err e' => simp [hw] at h
        | ok d =>
          refine ⟨d, rfl, ?_⟩
          simp only [hw, Bool.false_eq_true, if_false] at h
          cases hl : (strtok_all path).getLast? with
          | none =>
            left
            simp only [hl, Res.ok.injEq] at h
            exact ⟨rfl, h.symm⟩
          | some l =>
            right
            refine ⟨l, rfl, ?_⟩
            simp only [hl] at h
            by_cases h4 : l = ['.'] ∨ l = ['.', '.']
            · left
              simp only [h4, if_true] at h
              cases hw2 : walk s [l] d with
              | err e' => simp [hw2] at h
              | ok r =>
                simp only [hw2, Res.ok.injEq] at h
                exact ⟨h4, r, rfl, h.symm⟩
            · right
              simp only [h4, if_false] at h
              by_cases h5 : l.length > NAME_MAX
              · simp [h5] at h
              · simp only [h5, if_false, Res.ok.injEq] at h
                exact ⟨h4, by omega, h.symm⟩

theorem resolve_named_ne_nil (s : Sys) (path : CStr) (t : Target)
    (h : resolve s path = Res.ok t) (hn : t.named = true) : t.loc ≠ [] := by
  obtain ⟨_, _, _, d, _, hc⟩ := resolve_inv s path t h
  rcases hc with ⟨_, ht⟩ | ⟨l, _, ⟨_, r, _, ht⟩ | ⟨_, _, ht⟩⟩
  · rw [ht] at hn; simp at hn
  · rw [ht] at hn; simp at hn
  · rw [ht]; simp

/-! ## The concrete kernel: `mkdir` -/

theorem k_mkdir_of_exists (s : Sys) (q : CStr) (m : Nat) (h : mkdir_exists s q) :
    k_mkdir q m s = (Res.err Errno.EEXIST, s) := by
  obtain ⟨t, ht, hx⟩ := h
  unfold k_mkdir
  rw [ht]
  rcases hx with hx | hx
  · simp [hx]
  · by_cases hnm : t.named = false
    · simp [hnm]
    · cases hn : inode_at s t.loc with
      | none => simp [hn] at hx
      | some n => simp [hnm, hn]

theorem k_mkdir_cases (s : Sys) (q : CStr) (m : Nat) :
    ((k_mkdir q m s).1 = Res.ok () ∧ ext s (k_mkdir q m s).2 ∧ mkdir_exists (k_mkdir q m s).2 q) ∨
    (∃ e, (k_mkdir q m s).1 = Res.err e ∧ (k_mkdir q m s).2 = s ∧
      (e = Errno.EEXIST → mkdir_exists s q)) := by
  cases hr : resolve s q with
  | err e =>
    right
    refine ⟨e, ?_, ?_, fun h => absurd h (resolve_err_ne_eexist s q e hr)⟩
    · simp [k_mkdir, hr]
    · simp [k_mkdir, hr]
  | ok t =>
    by_cases hnm : t.named = false
    · right
      refine ⟨Errno.EEXIST, ?_, ?_, fun _ => ⟨t, hr, Or.inl hnm⟩⟩
      · simp [k_mkdir, hr, hnm]
      · simp [k_mkdir, hr, hnm]
    · cases hn : inode_at s t.loc with
      | some n =>
        right
        refine ⟨Errno.EEXIST, ?_, ?_, fun _ => ⟨t, hr, Or.inr (by simp [hn])⟩⟩
        · simp [k_mkdir, hr, hnm, hn]
        · simp [k_mkdir, hr, hnm, hn]
      | none =>
        left
        have hloc : t.loc ≠ [] := resolve_named_ne_nil s q t hr (by simpa using hnm)
        have hs : k_mkdir q m s = (Res.ok (),
            { s with
              names := (t.loc, fresh ROOT_INO s.inodes) :: s.names
              inodes := (fresh ROOT_INO s.inodes,
                ⟨Kind.dir, apply_umask (m % 0o2000) s.umask, s.euid, s.egid, []⟩) :: s.inodes }) := by
          simp [k_mkdir, hr, hnm, hn]
        rw [hs]
        have hext := ext_of_add s
          { s with
            names := (t.loc, fresh ROOT_INO s.inodes) :: s.names
            inodes := (fresh ROOT_INO s.inodes,
              ⟨Kind.dir, apply_umask (m % 0o2000) s.umask, s.euid, s.egid, []⟩) :: s.inodes }
          t.loc ⟨Kind.dir, apply_umask (m % 0o2000) s.umask, s.euid, s.egid, []⟩ hloc hn
          rfl rfl rfl
        refine ⟨rfl, hext, ⟨t, resolve_ext hext q t hr, Or.inr ?_⟩⟩
        have := (inode_at_add s
          { s with
            names := (t.loc, fresh ROOT_INO s.inodes) :: s.names
            inodes := (fresh ROOT_INO s.inodes,
              ⟨Kind.dir, apply_umask (m % 0o2000) s.umask, s.euid, s.egid, []⟩) :: s.inodes }
          t.loc ⟨Kind.dir, apply_umask (m % 0o2000) s.umask, s.euid, s.egid, []⟩ hloc
          rfl rfl).1
        simp [this]

/-! ## `ensure_directories` and `mkdir_p` on the concrete kernel -/

theorem mkdir_p_loop_targets (K : Kernel σ) (rest : List CStr) :
    ∀ (tmp tok : CStr) (w : World σ),
      mkdir_p_loop K tmp tok rest w = ensure_directories K (loop_targets tmp tok rest) w := by
  induction rest with
  | nil => intro tmp tok w; simp [mkdir_p_loop, loop_targets, ensure_directories]
  | cons nxt rest ih =>
    intro tmp tok w
    unfold mkdir_p_loop loop_targets ensure_directories
    simp only [DIR_MODE]
    rcases hres : sys_mkdir K (strncat (strncat tmp tok (PATH_MAX - tmp.length - 1)) ['/']
        (PATH_MAX - (strncat tmp tok (PATH_MAX - tmp.length - 1)).length - 1)) 493 w with ⟨r, w1⟩
    cases r with
    | ok v => simp only [ih]
    | err e =>
      by_cases he : e = Errno.EEXIST
      · subst he
        simp only [ne_eq, not_true_eq_false, if_false, if_true, ih]
      · simp [he]

theorem ensure_directories_first (ds : List CStr) :
    ∀ w : World Sys, (ensure_directories posix ds w).1 = 0 →
      ext w.st (ensure_directories posix ds w).2.st ∧
      ∀ d ∈ ds, mkdir_exists (ensure_directories posix ds w).2.st d := by
  induction ds with
  | nil => intro w _; exact ⟨ext_refl _, by simp⟩
  | cons d ds ih =>
    intro w h
    unfold ensure_directories at h ⊢
    have hc := k_mkdir_cases w.st d 493
    have hst : (sys_mkdir posix d 493 w).2.st = (k_mkdir d 493 w.st).2 := rfl
    have hr1 : (sys_mkdir posix d 493 w).1 = (k_mkdir d 493 w.st).1 := rfl
    rcases hres : sys_mkdir posix d 493 w with ⟨r, w1⟩
    rw [hres] at hst hr1 h
    simp only at hst hr1
    have key : (ensure_directories posix ds w1).1 = 0 →
        ext w.st w1.st → mkdir_exists w1.st d →
        ext w.st (ensure_directories posix ds w1).2.st ∧
          ∀ d' ∈ d :: ds, mkdir_exists (ensure_directories posix ds w1).2.st d' := by
      intro h0 hext hex
      obtain ⟨i1, i2⟩ := ih w1 h0
      refine ⟨ext_trans hext i1, ?_⟩
      intro d' hd'
      rcases List.mem_cons.1 hd' with hd' | hd'
      · rw [hd']; exact mkdir_exists_ext i1 d hex
      · exact i2 d' hd'
    cases r with
    | ok v =>
      simp only at h ⊢
      rcases hc with ⟨_, c2, c3⟩ | ⟨e, c1, _, _⟩
      · rw [← hst] at c2 c3
        exact key h c2 c3
      · rw [← hr1] at c1; simp at c1
    | err e =>
      simp only at h ⊢
      by_cases he : e = Errno.EEXIST
      · simp only [he, if_true] at h ⊢
        rcases hc with ⟨c1, _, _⟩ | ⟨e', c1, c2, c3⟩
        · rw [← hr1] at c1; simp at c1
        · rw [← hr1] at c1
          simp only [Res.err.injEq] at c1
          rw [← hst] at c2
          refine key h ?_ ?_
          · rw [c2]; exact ext_refl _
          · rw [c2]; exact c3 (by rw [← c1, he])
      · simp [he] at h

theorem ensure_directories_again (ds : List CStr) :
    ∀ w : World Sys, (∀ d ∈ ds, mkdir_exists w.st d) →
      (ensure_directories posix ds w).1 = 0 ∧ (ensure_directories posix ds w).2.st = w.st := by
  induction ds with
  | nil => intro w _; simp [ensure_directories]
  | cons d ds ih =>
    intro w h
    have hd := k_mkdir_of_exists w.st d 493 (h d (List.mem_cons_self _ _))
    have hs : sys_mkdir posix d 493 w
        = (Res.err Errno.EEXIST, ⟨w.st, w.trace ++ [Call.mkdir d 493]⟩) := by
      unfold sys_mkdir
      show ((k_mkdir d 493 w.st).1, (⟨(k_mkdir d 493 w.st).2, _⟩ : World Sys)) = _
      rw [hd]
    unfold ensure_directories
    rw [hs]
    simp only [if_true]
    exact ih ⟨w.st, w.trace ++ [Call.mkdir d 493]⟩
      (fun d' hd' => h d' (List.mem_cons_of_mem _ hd'))

/-- C9: on the concrete kernel, where `mkdir` of an existing directory fails with `EEXIST`,
if `mkdir_p(path)` returns 0 then a second `mkdir_p(path)` on the resulting state returns 0
and leaves the kernel state, and so the set of directories, exactly as the first call left
it. -/
theorem mkdir_p_idempotent (path : CStr) (w : World Sys) (h : (mkdir_p posix path w).1 = 0) :
    (mkdir_p posix path (mkdir_p posix path w).2).1 = 0 ∧
    (mkdir_p posix path (mkdir_p posix path w).2).2.st = (mkdir_p posix path w).2.st := by
  unfold mkdir_p at h ⊢
  cases hts : strtok_all path with
  | nil => rw [hts] at h; simp at h
  | cons tok rest =>
    rw [hts] at h
    simp only [mkdir_p_loop_targets] at h ⊢
    have h1 := ensure_directories_first _ w h
    exact ensure_directories_again _ _ h1.2

theorem mkdir_p_idempotent_witness :
    (mkdir_p posix "/var/run/app/queue".toList world0).1 = 0 ∧
    (mkdir_p posix "/var/run/app/queue".toList
      (mkdir_p posix "/var/run/app/queue".toList world0).2).1 = 0 ∧
    (mkdir_p posix "/var/run/app/queue".toList
      (mkdir_p posix "/var/run/app/queue".toList world0).2).2.st
      = (mkdir_p posix "/var/run/app/queue".toList world0).2.st :=
  ⟨by decide, mkdir_p_idempotent "/var/run/app/queue".toList world0 (by decide)⟩

/-! ## The concrete kernel: frames -/

theorem same_fs_refl (s : Sys) : same_fs s s := ⟨rfl, rfl, rfl, rfl, rfl, rfl, rfl, rfl⟩

theorem same_ipc_refl (s : Sys) : same_ipc s s := ⟨rfl, rfl, rfl, rfl, rfl, rfl, rfl⟩

theorem same_ipc_trans {s1 s2 s3 : Sys} (h12 : same_ipc s1 s2) (h23 : same_ipc s2 s3) :
    same_ipc s1 s3 := by
  obtain ⟨a1, a2, a3, a4, a5, a6, a7⟩ := h12
  obtain ⟨b1, b2, b3, b4, b5, b6, b7⟩ := h23
  exact ⟨b1.trans a1, b2.trans a2, b3.trans a3, b4.trans a4, b5.trans a5, b6.trans a6,
    b7.trans a7⟩

theorem inode_at_same_fs {s s' : Sys} (h : same_fs s s') (p : List CStr) :
    inode_at s' p = inode_at s p := by
  unfold inode_at
  rw [h.1, h.2.1]

theorem ext_of_same_fs {s s' : Sys} (h : same_fs s s') : ext s s' :=
  ⟨h.2.2.2.1, fun p n hp => ⟨n, by rw [inode_at_same_fs h p]; exact hp, rfl⟩⟩

theorem same_fs_symm {s s' : Sys} (h : same_fs s s') : same_fs s' s := by
  obtain ⟨a1, a2, a3, a4, a5, a6, a7, a8⟩ := h
  exact ⟨a1.symm, a2.symm, a3.symm, a4.symm, a5.symm, a6.symm, a7.symm, a8.symm⟩

theorem backing_inode_at {s : Sys} {i : Nat} {n : Inode} {t : Target}
    (hloc : t.loc ≠ []) (hnm : assoc s.names t.loc = some i) (hin : assoc s.inodes i = some n) :
    ino_at s t.loc = some i ∧ inode_at s t.loc = some n := by
  unfold ino_at inode_at
  simp [hloc, hnm, hin]

theorem backing_frame {s s' : Sys} {path : CStr} {i : Nat} {n n' : Inode} (hext : ext s s')
    (hnames : s'.names = s.names) (hin : assoc s'.inodes i = some n') (hk : n'.kind = Kind.reg)
    (h : backing s path i n) : backing s' path i n' := by
  obtain ⟨t, h1, h2, h3, h4, _, _⟩ := h
  exact ⟨t, resolve_ext hext path t h1, h2, h3, by rw [hnames]; exact h4, hin, hk⟩

theorem backing_same_fs {s s' : Sys} {path : CStr} {i : Nat} {n : Inode} (h : same_fs s s')
    (hb : backing s path i n) : backing s' path i n := by
  obtain ⟨t, h1, h2, h3, h4, h5, h6⟩ := hb
  exact ⟨t, resolve_ext (ext_of_same_fs h) path t h1, h2, h3, by rw [h.1]; exact h4,
    by rw [h.2.1]; exact h5, h6⟩

theorem file_at_of_backing {s : Sys} {path : CStr} {i : Nat} {n : Inode}
    (h : backing s path i n) : file_at s path = some n := by
  obtain ⟨t, h1, h2, h3, h4, h5, h6⟩ := h
  unfold file_at
  rw [h1]
  simp [(backing_inode_at h3 h4 h5).2, h6, h2]

/-! ## The concrete kernel: `open`, `fchmod`, `fchown`, `ftok` -/

theorem open_flags_facts :
    (O_CREAT ||| O_RDWR) % 4 ≠ 0 ∧ (O_CREAT ||| O_RDWR) &&& O_CREAT ≠ 0 ∧
    (O_CREAT ||| O_RDWR) &&& O_EXCL = 0 ∧ (O_CREAT ||| O_RDWR) &&& O_TRUNC = 0 := by decide

theorem k_open_existing {s : Sys} {path : CStr} {i : Nat} {n : Inode} (m : Nat)
    (h : backing s path i n) :
    k_open path (O_CREAT ||| O_RDWR) m s
      = (Res.ok (fresh 2 s.fds), { s with fds := (fresh 2 s.fds, i) :: s.fds }) := by
  obtain ⟨t, h1, h2, h3, h4, h5, h6⟩ := h
  obtain ⟨e1, e2⟩ := backing_inode_at h3 h4 h5
  obtain ⟨f1, f2, f3, f4⟩ := open_flags_facts
  unfold k_open
  rw [h1]
  simp only [e1, e2, h6, h2, f3, f4]
  simp

theorem k_open_inv {s s' : Sys} {path : CStr} {m fd : Nat}
    (h : k_open path (O_CREAT ||| O_RDWR) m s = (Res.ok fd, s')) :
    ext s s' ∧ same_ipc s s' ∧ ∃ i n, backing s' path i n ∧ assoc s'.fds fd = some i := by
  obtain ⟨f1, f2, f3, f4⟩ := open_flags_facts
  unfold k_open at h
  cases hr : resolve s path with
  | err e => simp [hr] at h
  | ok t =>
    rw [hr] at h
    simp only at h
    by_cases hex : ∃ i n, ino_at s t.loc = some i ∧ inode_at s t.loc = some n
    · obtain ⟨i, n, hi, hn⟩ := hex
      simp only [hi, hn] at h
      by_cases hk : n.kind = Kind.dir
      · simp [hk, f1] at h
      · simp only [hk, if_false] at h
        by_cases hs : t.slash = true
        · simp [hs] at h
        · simp only [hs, f3, f4] at h
          simp only [Bool.false_eq_true, if_false, ne_eq, not_true_eq_false, and_false,
            false_and, Prod.mk.injEq, Res.ok.injEq] at h
          obtain ⟨hfd, hs'⟩ := h
          have hloc : t.loc ≠ [] := by
            intro h0
            rw [h0] at hn
            simp [inode_at] at hn
            rw [← hn] at hk
            exact hk rfl
          have hnames : assoc s.names t.loc = some i := by
            simpa [ino_at, hloc] using hi
          have hin : assoc s.inodes i = some n := by
            simpa [inode_at, hloc, hnames] using hn
          have hkr : n.kind = Kind.reg := by
            cases hkk : n.kind with
            | dir => exact absurd hkk hk
            | reg => rfl
          have hext : ext s { s with fds := (fresh 2 s.fds, i) :: s.fds } :=
            ⟨rfl, fun p n' hp => ⟨n', hp, rfl⟩⟩
          rw [← hs']
          refine ⟨hext, ⟨rfl, rfl, rfl, rfl, rfl, rfl, rfl⟩,
            i, n, ⟨t, resolve_ext hext path t hr, by simpa using hs, hloc, hnames, hin, hkr⟩, ?_⟩
          rw [← hfd]; simp [assoc_cons]
    · have hnone : inode_at s t.loc = none := by
        cases hn : inode_at s t.loc with
        | none => rfl
        | some n =>
          exfalso
          apply hex
          by_cases h0 : t.loc = []
          · exact ⟨ROOT_INO, n, by simp [ino_at, h0], hn⟩
          · cases hj : assoc s.names t.loc with
            | none => simp [inode_at, h0, hj] at hn
            | some j => exact ⟨j, n, by simp [ino_at, h0, hj], hn⟩
      have hmatch : (match ino_at s t.loc, inode_at s t.loc with
          | some i, some n =>
            if n.kind = Kind.dir then
              (if (O_CREAT ||| O_RDWR) % 4 ≠ 0 ∨ (O_CREAT ||| O_RDWR) &&& O_CREAT ≠ 0 then
                (Res.err Errno.EISDIR, s)
               else (Res.ok (fresh 2 s.fds), { s with fds := (fresh 2 s.fds, i) :: s.fds }))
            else if t.slash then (Res.err Errno.ENOTDIR, s)
            else if (O_CREAT ||| O_RDWR) &&& O_CREAT ≠ 0 ∧ (O_CREAT ||| O_RDWR) &&& O_EXCL ≠ 0 then
              (Res.err Errno.EEXIST, s)
            else if (O_CREAT ||| O_RDWR) &&& O_TRUNC ≠ 0 ∧ (O_CREAT ||| O_RDWR) % 4 ≠ 0 then
              (Res.ok (fresh 2 s.fds),
                { s with fds := (fresh 2 s.fds, i) :: s.fds
                         inodes := (i, { n with data := [] }) :: s.inodes })
            else (Res.ok (fresh 2 s.fds), { s with fds := (fresh 2 s.fds, i) :: s.fds })
          | _, _ =>
            if (O_CREAT ||| O_RDWR) &&& O_CREAT = 0 then (Res.err Errno.ENOENT, s)
            else if t.slash ∨ t.named = false then (Res.err Errno.EISDIR, s)
            else
              (Res.ok (fresh 2 s.fds),
                { s with
                  names := (t.loc, fresh ROOT_INO s.inodes) :: s.names
                  inodes := (fresh ROOT_INO s.inodes,
                    ⟨Kind.reg, apply_umask (m % 0o10000) s.umask, s.euid, s.egid, []⟩) :: s.inodes
                  fds := (fresh 2 s.fds, fresh ROOT_INO s.inodes) :: s.fds }))
          = (if t.slash ∨ t.named = false then (Res.err Errno.EISDIR, s)
            else
              (Res.ok (fresh 2 s.fds),
                { s with
                  names := (t.loc, fresh ROOT_INO s.inodes) :: s.names
                  inodes := (fresh ROOT_INO s.inodes,
                    ⟨Kind.reg, apply_umask (m % 0o10000) s.umask, s.euid, s.egid, []⟩) :: s.inodes
                  fds := (fresh 2 s.fds, fresh ROOT_INO s.inodes) :: s.fds })) := by
        rw [hnone]
        simp [f2]
      rw [hmatch] at h
      by_cases hsn : t.slash ∨ t.named = false
      · simp [hsn] at h
      · rw [if_neg hsn] at h
        simp only [Prod.mk.injEq, Res.ok.injEq] at h
        obtain ⟨hfd, hs'⟩ := h
        simp only [not_or] at hsn
        have hnamed : t.named = true := by simpa using hsn.2
        have hloc : t.loc ≠ [] := resolve_named_ne_nil s path t hr hnamed
        have hext := ext_of_add s s' t.loc
          ⟨Kind.reg, apply_umask (m % 0o10000) s.umask, s.euid, s.egid, []⟩ hloc hnone
          (by rw [← hs']) (by rw [← hs']) (by rw [← hs'])
        refine ⟨hext, by rw [← hs']; exact ⟨rfl, rfl, rfl, rfl, rfl, rfl, rfl⟩,
          fresh ROOT_INO s.inodes,
          ⟨Kind.reg, apply_umask (m % 0o10000) s.umask, s.euid, s.egid, []⟩,
          ⟨t, resolve_ext hext path t hr, by simpa using hsn.1, hloc, ?_, ?_, rfl⟩, ?_⟩
        · rw [← hs']; simp [assoc_cons]
        · rw [← hs']; simp [assoc_cons]
        · rw [← hs', ← hfd]; simp [assoc_cons]

theorem k_fchmod_ok {s : Sys} {fd i : Nat} {n : Inode} (m : Nat)
    (hfd : assoc s.fds fd = some i) (hin : assoc s.inodes i = some n) :
    k_fchmod fd m s = (Res.ok (), { s with inodes := (i, chmod_inode n m) :: s.inodes }) := by
  unfold k_fchmod
  simp [hfd, hin]

theorem k_fchown_ok {s : Sys} {fd i : Nat} {n : Inode} (uid gid : Nat)
    (hfd : assoc s.fds fd = some i) (hin : assoc s.inodes i = some n) :
    k_fchown fd uid gid s
      = (Res.ok (), { s with inodes := (i, chown_inode n uid gid) :: s.inodes }) := by
  unfold k_fchown
  simp [hfd, hin]

theorem k_ftok_ok {s : Sys} {path : CStr} {i : Nat} {n : Inode} (proj : Nat)
    (h : backing s path i n) : k_ftok path proj s = (Res.ok (ftok_key i s.dev proj), s) := by
  obtain ⟨t, h1, h2, h3, h4, h5, h6⟩ := h
  obtain ⟨e1, e2⟩ := backing_inode_at h3 h4 h5
  unfold k_ftok
  rw [h1]
  simp [e1, e2, h2]

/-! ## The concrete kernel: message queues and `remove` -/

theorem queue_of_key_iff (s : Sys) (k id : Nat) (q : msqid_ds) :
    queue_of_key s k = some (id, q) ↔ assoc s.qkeys k = some id ∧ assoc s.queues id = some q := by
  unfold queue_of_key
  cases h1 : assoc s.qkeys k with
  | none => simp
  | some j =>
    cases h2 : assoc s.queues j with
    | none =>
      simp only [h2]
      constructor
      · intro h; simp at h
      · rintro ⟨hj, hq⟩
        simp only [Option.some.injEq] at hj
        rw [← hj, h2] at hq
        simp at hq
    | some q' =>
      simp only [h2, Option.some.injEq, Prod.mk.injEq]
      constructor
      · rintro ⟨e1, e2⟩
        refine ⟨e1, ?_⟩
        rw [← e1, h2, e2]
      · rintro ⟨e1, e2⟩
        refine ⟨e1, ?_⟩
        rw [← e1, h2] at e2
        simpa using e2

theorem queue_of_key_same_ipc {s s' : Sys} (h : same_ipc s s') (k : Nat) :
    queue_of_key s' k = queue_of_key s k := by
  unfold queue_of_key
  rw [h.1, h.2.1]

theorem k_msgget_existing {s : Sys} {k id flags : Nat} {q : msqid_ds}
    (h : queue_of_key s k = some (id, q)) (hf : flags &&& IPC_EXCL = 0) :
    k_msgget k flags s = (Res.ok id, s) := by
  unfold k_msgget
  rw [h]
  simp [hf]

theorem k_msgget_inv {s s' : Sys} {k id flags : Nat} (h : k_msgget k flags s = (Res.ok id, s')) :
    same_fs s s' ∧ ∃ q, queue_of_key s' k = some (id, q) ∧
      ((queue_of_key s k = some (id, q) ∧ s' = s) ∨
       (queue_of_key s k = none ∧
        q = ⟨⟨k, s.euid, s.egid, s.euid, s.egid, flags % 0o1000⟩, 0, MSGMNB⟩)) := by
  unfold k_msgget at h
  cases hq : queue_of_key s k with
  | some e =>
    obtain ⟨id0, q0⟩ := e
    rw [hq] at h
    simp only at h
    by_cases hf : flags &&& IPC_CREAT ≠ 0 ∧ flags &&& IPC_EXCL ≠ 0
    · simp [hf] at h
    · rw [if_neg hf] at h
      simp only [Prod.mk.injEq, Res.ok.injEq] at h
      obtain ⟨e1, e2⟩ := h
      subst e1 e2
      exact ⟨same_fs_refl _, q0, hq, Or.inl ⟨rfl, rfl⟩⟩
  | none =>
    rw [hq] at h
    simp only at h
    by_cases hf : flags &&& IPC_CREAT = 0
    · simp [hf] at h
    · rw [if_neg hf] at h
      simp only [Prod.mk.injEq, Res.ok.injEq] at h
      obtain ⟨e1, e2⟩ := h
      subst e1 e2
      refine ⟨⟨rfl, rfl, rfl, rfl, rfl, rfl, rfl, rfl⟩, _, ?_, Or.inr ⟨rfl, rfl⟩⟩
      rw [queue_of_key_iff]
      simp [assoc_cons]

theorem k_msgctl_stat_ok {s : Sys} {id : Nat} {q : msqid_ds} (h : assoc s.queues id = some q) :
    k_msgctl_stat id s = (Res.ok q, s) := by
  unfold k_msgctl_stat
  simp [h]

theorem k_msgctl_set_cases {s : Sys} {id : Nat} {q : msqid_ds} (buf : msqid_ds)
    (h : assoc s.queues id = some q) :
    (buf.msg_perm.uid ≠ UNSET ∧ buf.msg_perm.gid ≠ UNSET ∧
      k_msgctl_set id buf s = (Res.ok (), { s with queues := (id, ipc_set q buf) :: s.queues })) ∨
    (∃ e, k_msgctl_set id buf s = (Res.err e, s)) := by
  unfold k_msgctl_set
  rw [h]
  simp only
  by_cases hu : buf.msg_perm.uid = UNSET ∨ buf.msg_perm.gid = UNSET
  · right; exact ⟨_, by rw [if_pos hu]⟩
  · left
    rw [if_neg hu]
    simp only [not_or] at hu
    exact ⟨hu.1, hu.2, rfl⟩

theorem k_msgctl_rmid_ok {s : Sys} {id : Nat} {q : msqid_ds} (h : assoc s.queues id = some q) :
    k_msgctl_rmid id s
      = (Res.ok (), { s with queues := unbind id s.queues
                             qkeys := unbind q.msg_perm.key s.qkeys }) := by
  unfold k_msgctl_rmid
  simp [h]

theorem queue_gone_after_rmid (s : Sys) (k id : Nat) (q : msqid_ds)
    (hk : assoc s.qkeys k = some id) :
    queue_of_key { s with queues := unbind id s.queues
                          qkeys := unbind q.msg_perm.key s.qkeys } k = none := by
  unfold queue_of_key
  simp only [assoc_unbind]
  by_cases h : k = q.msg_perm.key
  · simp [h]
  · simp [h, hk]

theorem k_remove_ok {s : Sys} {path : CStr} {i : Nat} {n : Inode} (h : backing s path i n) :
    ∃ s', k_remove path s = (Res.ok (), s') ∧ file_at s' path = none ∧ same_ipc s s' := by
  obtain ⟨t, h1, h2, h3, h4, h5, h6⟩ := h
  obtain ⟨_, e2⟩ := backing_inode_at h3 h4 h5
  refine ⟨{ s with names := unbind t.loc s.names }, ?_, ?_, ⟨rfl, rfl, rfl, rfl, rfl, rfl, rfl⟩⟩
  · unfold k_remove
    rw [h1]
    simp [e2, h6, h2]
  · have hsub : ext { s with names := unbind t.loc s.names } s := by
      refine ⟨rfl, ?_⟩
      intro p m hp
      refine ⟨m, ?_, rfl⟩
      unfold inode_at at hp ⊢
      by_cases hp0 : p = []
      · simpa [hp0] using hp
      · simp only [hp0, if_false, assoc_unbind] at hp ⊢
        by_cases hpl : p = t.loc
        · simp [hpl] at hp
        · simpa [hpl] using hp
    have hnone : inode_at { s with names := unbind t.loc s.names } t.loc = none := by
      unfold inode_at
      simp [h3, assoc_unbind]
    unfold file_at
    cases hr : resolve { s with names := unbind t.loc s.names } path with
    | err e => rfl
    | ok t' =>
      have := resolve_ext hsub path t' hr
      rw [h1] at this
      simp only [Res.ok.injEq] at this
      subst this
      simp [hnone]

/-! ## The wrappers on the concrete kernel -/

theorem sys_mkdir_st (p : CStr) (m : Nat) (w : World Sys) :
    (sys_mkdir posix p m w).1 = (k_mkdir p m w.st).1 ∧
      (sys_mkdir posix p m w).2.st = (k_mkdir p m w.st).2 := ⟨rfl, rfl⟩

theorem sys_open_posix {p : CStr} {f m : Nat} {w : World Sys} {r : Res Nat} {s' : Sys}
    (h : k_open p f m w.st = (r, s')) :
    sys_open posix p f m w = (r, ⟨s', w.trace ++ [Call.open_ p f m]⟩) := by
  show ((k_open p f m w.st).1, (⟨(k_open p f m w.st).2, _⟩ : World Sys)) = _
  rw [h]

theorem sys_open_posix_inv {p : CStr} {f m : Nat} {w w' : World Sys} {r : Res Nat}
    (h : sys_open posix p f m w = (r, w')) : k_open p f m w.st = (r, w'.st) := by
  have h1 : (sys_open posix p f m w).1 = r := by rw [h]
  have h2 : (sys_open posix p f m w).2.st = w'.st := by rw [h]
  exact Prod.ext h1 h2

theorem sys_fchmod_posix {fd m : Nat} {w : World Sys} {r : Res Unit} {s' : Sys}
    (h : k_fchmod fd m w.st = (r, s')) :
    sys_fchmod posix fd m w = (r, ⟨s', w.trace ++ [Call.fchmod fd m]⟩) := by
  show ((k_fchmod fd m w.st).1, (⟨(k_fchmod fd m w.st).2, _⟩ : World Sys)) = _
  rw [h]

theorem sys_fchown_posix {fd u g : Nat} {w : World Sys} {r : Res Unit} {s' : Sys}
    (h : k_fchown fd u g w.st = (r, s')) :
    sys_fchown posix fd u g w = (r, ⟨s', w.trace ++ [Call.fchown fd u g]⟩) := by
  show ((k_fchown fd u g w.st).1, (⟨(k_fchown fd u g w.st).2, _⟩ : World Sys)) = _
  rw [h]

theorem sys_ftok_posix {p : CStr} {j : Nat} {w : World Sys} {r : Res Nat} {s' : Sys}
    (h : k_ftok p j w.st = (r, s')) :
    sys_ftok posix p j w = (r, ⟨s', w.trace ++ [Call.ftok p j]⟩) := by
  show ((k_ftok p j w.st).1, (⟨(k_ftok p j w.st).2, _⟩ : World Sys)) = _
  rw [h]

theorem sys_msgget_posix {k f : Nat} {w : World Sys} {r : Res Nat} {s' : Sys}
    (h : k_msgget k f w.st = (r, s')) :
    sys_msgget posix k f w = (r, ⟨s', w.trace ++ [Call.msgget k f]⟩) := by
  show ((k_msgget k f w.st).1, (⟨(k_msgget k f w.st).2, _⟩ : World Sys)) = _
  rw [h]

theorem sys_msgget_posix_inv {k f : Nat} {w w' : World Sys} {r : Res Nat}
    (h : sys_msgget posix k f w = (r, w')) : k_msgget k f w.st = (r, w'.st) := by
  have h1 : (sys_msgget posix k f w).1 = r := by rw [h]
  have h2 : (sys_msgget posix k f w).2.st = w'.st := by rw [h]
  exact Prod.ext h1 h2

theorem sys_msgctl_stat_posix {id : Nat} {w : World Sys} {r : Res msqid_ds} {s' : Sys}
    (h : k_msgctl_stat id w.st = (r, s')) :
    sys_msgctl_stat posix id w = (r, ⟨s', w.trace ++ [Call.msgctl_stat id]⟩) := by
  show ((k_msgctl_stat id w.st).1, (⟨(k_msgctl_stat id w.st).2, _⟩ : World Sys)) = _
  rw [h]

theorem sys_msgctl_set_posix {id : Nat} {buf : msqid_ds} {w : World Sys} {r : Res Unit}
    {s' : Sys} (h : k_msgctl_set id buf w.st = (r, s')) :
    sys_msgctl_set posix id buf w = (r, ⟨s', w.trace ++ [Call.msgctl_set id buf]⟩) := by
  show ((k_msgctl_set id buf w.st).1, (⟨(k_msgctl_set id buf w.st).2, _⟩ : World Sys)) = _
  rw [h]

theorem sys_msgctl_rmid_posix {id : Nat} {w : World Sys} {r : Res Unit} {s' : Sys}
    (h : k_msgctl_rmid id w.st = (r, s')) :
    sys_msgctl_rmid posix id w = (r, ⟨s', w.trace ++ [Call.msgctl_rmid id]⟩) := by
  show ((k_msgctl_rmid id w.st).1, (⟨(k_msgctl_rmid id w.st).2, _⟩ : World Sys)) = _
  rw [h]

theorem sys_remove_posix {p : CStr} {w : World Sys} {r : Res Unit} {s' : Sys}
    (h : k_remove p w.st = (r, s')) :
    sys_remove posix p w = (r, ⟨s', w.trace ++ [Call.remove p]⟩) := by
  show ((k_remove p w.st).1, (⟨(k_remove p w.st).2, _⟩ : World Sys)) = _
  rw [h]

/-! ## `create_msg_queue_file` on the concrete kernel -/

theorem k_mkdir_same_ipc (q : CStr) (m : Nat) (s : Sys) : same_ipc s (k_mkdir q m s).2 := by
  unfold k_mkdir
  cases resolve s q with
  | err e => exact same_ipc_refl s
  | ok t =>
    simp only
    by_cases hnm : t.named = false
    · rw [if_pos hnm]; exact same_ipc_refl s
    · rw [if_neg hnm]
      cases hn : inode_at s t.loc with
      | some n => simp only [hn]; exact same_ipc_refl s
      | none => simp only [hn]; exact ⟨rfl, rfl, rfl, rfl, rfl, rfl, rfl⟩

theorem ensure_directories_same_ipc (ds : List CStr) :
    ∀ w : World Sys, same_ipc w.st (ensure_directories posix ds w).2.st := by
  induction ds with
  | nil => intro w; exact same_ipc_refl _
  | cons d ds ih =>
    intro w
    unfold ensure_directories
    have h1 := k_mkdir_same_ipc d 493 w.st
    have hst : (sys_mkdir posix d 493 w).2.st = (k_mkdir d 493 w.st).2 := rfl
    rcases hres : sys_mkdir posix d 493 w with ⟨r, w1⟩
    rw [hres] at hst
    simp only at hst
    rw [← hst] at h1
    cases r with
    | ok v => exact same_ipc_trans h1 (ih w1)
    | err e =>
      by_cases he : e = Errno.EEXIST
      · simp only [he, if_true]; exact same_ipc_trans h1 (ih w1)
      · simp only [he, if_false]; exact h1

theorem mkdir_p_posix_eq (path : CStr) (w : World Sys) (hne : strtok_all path ≠ []) :
    mkdir_p posix path w = ensure_directories posix (mkdir_targets path) w := by
  unfold mkdir_p mkdir_targets
  cases hts : strtok_all path with
  | nil => exact absurd hts hne
  | cons tok rest => simp only [mkdir_p_loop_targets]

theorem mkdir_p_tokens_of_ok {K : Kernel σ} {path : CStr} {w : World σ}
    (h : (mkdir_p K path w).1 = 0) : strtok_all path ≠ [] := by
  intro hts
  unfold mkdir_p at h
  rw [hts] at h
  simp at h

theorem mkdir_p_posix_first (path : CStr) (w : World Sys) (h : (mkdir_p posix path w).1 = 0) :
    ext w.st (mkdir_p posix path w).2.st ∧ same_ipc w.st (mkdir_p posix path w).2.st ∧
      ∀ d ∈ mkdir_targets path, mkdir_exists (mkdir_p posix path w).2.st d := by
  have hne := mkdir_p_tokens_of_ok h
  rw [mkdir_p_posix_eq path w hne] at h ⊢
  obtain ⟨h1, h2⟩ := ensure_directories_first _ w h
  exact ⟨h1, ensure_directories_same_ipc _ w, h2⟩

theorem mkdir_p_posix_again (path : CStr) (w : World Sys) (hne : strtok_all path ≠ [])
    (h : ∀ d ∈ mkdir_targets path, mkdir_exists w.st d) :
    ∃ w1, mkdir_p posix path w = (0, w1) ∧ w1.st = w.st := by
  rw [mkdir_p_posix_eq path w hne]
  obtain ⟨h1, h2⟩ := ensure_directories_again _ w h
  exact ⟨(ensure_directories posix (mkdir_targets path) w).2, Prod.ext h1 rfl, h2⟩

/-- The steps behind a successful `create_msg_queue_file`, for any kernel. -/
theorem create_file_steps {K : Kernel σ} {path : CStr} {perm : Int} {u g : Nat} {w : World σ}
    (h : (create_msg_queue_file K path perm u g w).1 = 0) :
    (strstr path "..".toList).isSome = false ∧ strncmp "/var/run/".toList path 9 = 0 ∧
    ¬ path.length > PATH_MAX - 1 ∧
    ∃ w1 fd w2, mkdir_p K path w = (0, w1) ∧
      sys_open K path (O_CREAT ||| O_RDWR) (to_u32 perm) w1 = (Res.ok fd, w2) := by
  unfold create_msg_queue_file at h
  by_cases h1 : (strstr path "..".toList).isSome = true
  · rw [if_pos h1] at h; simp at h
  · rw [if_neg h1] at h
    by_cases h2 : strncmp "/var/run/".toList path 9 ≠ 0
    · rw [if_pos h2] at h; simp at h
    · rw [if_neg h2] at h
      by_cases h3 : path.length > PATH_MAX - 1
      · rw [if_pos h3] at h; simp at h
      · rw [if_neg h3] at h
        refine ⟨by simpa using h1, by simpa using h2, h3, ?_⟩
        rcases hm : mkdir_p K path w with ⟨r, w1⟩
        rw [hm] at h
        simp only at h
        by_cases hr : r ≠ 0
        · rw [if_pos hr] at h; simp at h
        · rw [if_neg hr] at h
          have hr0 : r = 0 := by simpa using hr
          subst hr0
          rcases ho : sys_open K path (O_CREAT ||| O_RDWR) (to_u32 perm) w1 with ⟨ro, w2⟩
          rw [ho] at h
          cases ro with
          | err e => simp at h
          | ok fd => exact ⟨w1, fd, w2, rfl, ho⟩

/-- From a successful `open` on, `create_msg_queue_file` succeeds on the concrete kernel and
leaves the file with the inode `file_final`. -/
theorem create_file_fwd (c : msg_queue_config) (w w1 w2 : World Sys) (fd i : Nat) (n0 : Inode)
    (hv1 : (strstr c.path "..".toList).isSome = false)
    (hv2 : strncmp "/var/run/".toList c.path 9 = 0) (hv3 : ¬ c.path.length > PATH_MAX - 1)
    (hm : mkdir_p posix c.path w = (0, w1))
    (ho : sys_open posix c.path (O_CREAT ||| O_RDWR) (to_u32 c.permissions) w1 = (Res.ok fd, w2))
    (hb : backing w2.st c.path i n0) (hfd : assoc w2.st.fds fd = some i) :
    ∃ wF, create_msg_queue_file posix c.path c.permissions c.user_id c.group_id w = (0, wF) ∧
      backing wF.st c.path i (file_final c n0) ∧ ext w2.st wF.st ∧ same_ipc w2.st wF.st := by
  have hin : assoc w2.st.inodes i = some n0 := by
    obtain ⟨t, _, _, _, _, h5, _⟩ := hb
    exact h5
  have hkind : n0.kind = Kind.reg := by
    obtain ⟨t, _, _, _, _, _, h6⟩ := hb
    exact h6
  have hchmod : sys_fchmod posix fd (to_u32 c.permissions) w2
      = (Res.ok (),
        ⟨{ w2.st with inodes := (i, chmod_inode n0 (to_u32 c.permissions)) :: w2.st.inodes },
          w2.trace ++ [Call.fchmod fd (to_u32 c.permissions)]⟩) :=
    sys_fchmod_posix (k_fchmod_ok (to_u32 c.permissions) hfd hin)
  have hext3 : ext w2.st
      { w2.st with inodes := (i, chmod_inode n0 (to_u32 c.permissions)) :: w2.st.inodes } :=
    ext_of_update _ _ i n0 _ rfl rfl rfl hin rfl
  have hb3 : backing
      { w2.st with inodes := (i, chmod_inode n0 (to_u32 c.permissions)) :: w2.st.inodes }
      c.path i (chmod_inode n0 (to_u32 c.permissions)) :=
    backing_frame hext3 rfl (by simp [assoc_cons]) hkind hb
  by_cases hw : c.user_id ≠ UNSET ∨ c.group_id ≠ UNSET
  · have hfin : file_final c n0
        = chown_inode (chmod_inode n0 (to_u32 c.permissions)) c.user_id c.group_id := by
      simp [file_final, wants_owner, hw]
    have hin3 : assoc ({ w2.st with
        inodes := (i, chmod_inode n0 (to_u32 c.permissions)) :: w2.st.inodes } : Sys).inodes i
        = some (chmod_inode n0 (to_u32 c.permissions)) := by simp [assoc_cons]
    have hchown : sys_fchown posix fd c.user_id c.group_id
        ⟨{ w2.st with inodes := (i, chmod_inode n0 (to_u32 c.permissions)) :: w2.st.inodes },
          w2.trace ++ [Call.fchmod fd (to_u32 c.permissions)]⟩
        = (Res.ok (),
          ⟨{ w2.st with
              inodes := (i, chown_inode (chmod_inode n0 (to_u32 c.permissions))
                  c.user_id c.group_id) ::
                (i, chmod_inode n0 (to_u32 c.permissions)) :: w2.st.inodes },
            w2.trace ++ [Call.fchmod fd (to_u32 c.permissions)]
              ++ [Call.fchown fd c.user_id c.group_id]⟩) :=
      sys_fchown_posix (k_fchown_ok c.user_id c.group_id (show assoc _ fd = some i from hfd) hin3)
    have hcre : create_msg_queue_file posix c.path c.permissions c.user_id c.group_id w
        = (0, ⟨{ w2.st with
              inodes := (i, chown_inode (chmod_inode n0 (to_u32 c.permissions))
                  c.user_id c.group_id) ::
                (i, chmod_inode n0 (to_u32 c.permissions)) :: w2.st.inodes },
            w2.trace ++ [Call.fchmod fd (to_u32 c.permissions)]
              ++ [Call.fchown fd c.user_id c.group_id]⟩) := by
      unfold create_msg_queue_file
      rw [if_neg (by rw [hv1]; exact Bool.false_ne_true), if_neg (fun h => h hv2), if_neg hv3, hm]
      simp only [ne_eq, not_true_eq_false, if_false, ho, hchmod, hchown, hw, if_true]
    have hext4 : ext
        { w2.st with inodes := (i, chmod_inode n0 (to_u32 c.permissions)) :: w2.st.inodes }
        { w2.st with
          inodes := (i, chown_inode (chmod_inode n0 (to_u32 c.permissions))
              c.user_id c.group_id) ::
            (i, chmod_inode n0 (to_u32 c.permissions)) :: w2.st.inodes } :=
      ext_of_update _ _ i (chmod_inode n0 (to_u32 c.permissions))
        (chown_inode (chmod_inode n0 (to_u32 c.permissions)) c.user_id c.group_id)
        rfl rfl rfl hin3 rfl
    refine ⟨_, hcre, ?_, ?_, ?_⟩
    · rw [hfin]
      exact backing_frame hext4 rfl (by simp [assoc_cons]) hkind hb3
    · exact ext_trans hext3 hext4
    · exact ⟨rfl, rfl, rfl, rfl, rfl, rfl, rfl⟩
  · have hfin : file_final c n0 = chmod_inode n0 (to_u32 c.permissions) := by
      simp [file_final, wants_owner, hw]
    have hcre : create_msg_queue_file posix c.path c.permissions c.user_id c.group_id w
        = (0, ⟨{ w2.st with
              inodes := (i, chmod_inode n0 (to_u32 c.permissions)) :: w2.st.inodes },
            w2.trace ++ [Call.fchmod fd (to_u32 c.permissions)]⟩) := by
      unfold create_msg_queue_file
      rw [if_neg (by rw [hv1]; exact Bool.false_ne_true), if_neg (fun h => h hv2), if_neg hv3, hm]
      simp only [ne_eq, not_true_eq_false, if_false, ho, hchmod, hw]
    refine ⟨_, hcre, ?_, hext3, ⟨rfl, rfl, rfl, rfl, rfl, rfl, rfl⟩⟩
    rw [hfin]; exact hb3

/-! ## `create_msg_queue` and `delete_msg_queue` on the concrete kernel -/

/-- From a successful `msgget` on, `create_msg_queue` succeeds on the concrete kernel provided
`IPC_SET` is not given an invalid id. -/
theorem create_queue_fwd (c : msg_queue_config) (w wF wG : World Sys) (i id : Nat) (n : Inode)
    (q0 : msqid_ds)
    (hcre : create_msg_queue_file posix c.path c.permissions c.user_id c.group_id w = (0, wF))
    (hb : backing wF.st c.path i n)
    (hg : sys_msgget posix (ftok_key i wF.st.dev PROJ_ID) (IPC_CREAT ||| to_u32 c.permissions)
        ⟨wF.st, wF.trace ++ [Call.ftok c.path PROJ_ID]⟩ = (Res.ok id, wG))
    (hq0 : assoc wG.st.queues id = some q0)
    (hset : wants_owner c = true →
      (set_owner c q0).msg_perm.uid ≠ UNSET ∧ (set_owner c q0).msg_perm.gid ≠ UNSET) :
    ∃ wH, create_msg_queue posix c w = (0, wH) ∧
      wH.st = (if wants_owner c then
        { wG.st with queues := (id, ipc_set q0 (set_owner c q0)) :: wG.st.queues }
        else wG.st) := by
  have hftok : sys_ftok posix c.path PROJ_ID wF
      = (Res.ok (ftok_key i wF.st.dev PROJ_ID), ⟨wF.st, wF.trace ++ [Call.ftok c.path PROJ_ID]⟩) :=
    sys_ftok_posix (k_ftok_ok PROJ_ID hb)
  by_cases hw : c.user_id ≠ UNSET ∨ c.group_id ≠ UNSET
  · have hwo : wants_owner c = true := by simp [wants_owner, hw]
    have hstat : sys_msgctl_stat posix id wG
        = (Res.ok q0, ⟨wG.st, wG.trace ++ [Call.msgctl_stat id]⟩) :=
      sys_msgctl_stat_posix (k_msgctl_stat_ok hq0)
    obtain ⟨hu, hgid⟩ := hset hwo
    have hsetk : k_msgctl_set id (set_owner c q0) wG.st
        = (Res.ok (), { wG.st with queues := (id, ipc_set q0 (set_owner c q0)) :: wG.st.queues }) := by
      rcases k_msgctl_set_cases (set_owner c q0) hq0 with ⟨_, _, h3⟩ | ⟨e, h3⟩
      · exact h3
      · exfalso
        unfold k_msgctl_set at h3
        rw [hq0] at h3
        simp [hu, hgid] at h3
    have hsets : sys_msgctl_set posix id (set_owner c q0)
        ⟨wG.st, wG.trace ++ [Call.msgctl_stat id]⟩
        = (Res.ok (),
          ⟨{ wG.st with queues := (id, ipc_set q0 (set_owner c q0)) :: wG.st.queues },
            wG.trace ++ [Call.msgctl_stat id] ++ [Call.msgctl_set id (set_owner c q0)]⟩) :=
      sys_msgctl_set_posix hsetk
    have hfin : create_msg_queue posix c w
        = (0, ⟨{ wG.st with queues := (id, ipc_set q0 (set_owner c q0)) :: wG.st.queues },
            wG.trace ++ [Call.msgctl_stat id] ++ [Call.msgctl_set id (set_owner c q0)]⟩) := by
      unfold create_msg_queue
      simp only [hcre, ne_eq, not_true_eq_false, if_false, hftok, hg, hw, if_true, hstat, hsets]
    refine ⟨_, hfin, ?_⟩
    simp [hwo]
  · have hwo : wants_owner c = false := by simp [wants_owner, hw]
    refine ⟨wG, ?_, ?_⟩
    · unfold create_msg_queue
      simp only [hcre, ne_eq, not_true_eq_false, if_false, hftok, hg, hw]
    · simp [hwo]

/-- What a successful `create_msg_queue` on the concrete kernel leaves behind. -/
theorem create_inv (c : msg_queue_config) (w : World Sys)
    (h : (create_msg_queue posix c w).1 = 0) :
    (strstr c.path "..".toList).isSome = false ∧ strncmp "/var/run/".toList c.path 9 = 0 ∧
    ¬ c.path.length > PATH_MAX - 1 ∧ strtok_all c.path ≠ [] ∧
    ext w.st (create_msg_queue posix c w).2.st ∧
    (∀ d ∈ mkdir_targets c.path, mkdir_exists (create_msg_queue posix c w).2.st d) ∧
    ∃ i n0 id q0,
      backing (sys_open posix c.path (O_CREAT ||| O_RDWR) (to_u32 c.permissions)
        (mkdir_p posix c.path w).2).2.st c.path i n0 ∧
      backing (create_msg_queue posix c w).2.st c.path i (file_final c n0) ∧
      (create_msg_queue posix c w).2.st.dev = w.st.dev ∧
      queue_of_key
        (k_msgget (ftok_key i w.st.dev PROJ_ID) (IPC_CREAT ||| to_u32 c.permissions)
          (create_msg_queue_file posix c.path c.permissions c.user_id c.group_id w).2.st).2
        (ftok_key i w.st.dev PROJ_ID) = some (id, q0) ∧
      queue_of_key (create_msg_queue posix c w).2.st (ftok_key i w.st.dev PROJ_ID)
        = some (id, queue_final c q0) ∧
      (wants_owner c = true →
        (set_owner c q0).msg_perm.uid ≠ UNSET ∧ (set_owner c q0).msg_perm.gid ≠ UNSET) := by
  have hfile : (create_msg_queue_file posix c.path c.permissions c.user_id c.group_id w).1 = 0 := by
    unfold create_msg_queue at h
    by_cases hr : (create_msg_queue_file posix c.path c.permissions c.user_id c.group_id w).1 = 0
    · exact hr
    · exfalso
      rcases hf : create_msg_queue_file posix c.path c.permissions c.user_id c.group_id w with ⟨r, wF⟩
      rw [hf] at h hr
      simp only at h hr
      rw [if_pos hr] at h
      simp at h
  obtain ⟨hv1, hv2, hv3, w1, fd, w2, hm, ho⟩ := create_file_steps hfile
  have hm1 : (mkdir_p posix c.path w).1 = 0 := by rw [hm]
  obtain ⟨e01, i01, t1⟩ := mkdir_p_posix_first c.path w hm1
  rw [hm] at e01 i01 t1
  simp only at e01 i01 t1
  obtain ⟨e12, i12, i, n0, hb2, hfd⟩ := k_open_inv (sys_open_posix_inv ho)
  obtain ⟨wF, hcre, hbF, e2F, i2F⟩ := create_file_fwd c w w1 w2 fd i n0 hv1 hv2 hv3 hm ho hb2 hfd
  have idev : wF.st.dev = w.st.dev := by
    rw [i2F.2.2.1, i12.2.2.1, i01.2.2.1]
  have hftok : sys_ftok posix c.path PROJ_ID wF
      = (Res.ok (ftok_key i wF.st.dev PROJ_ID), ⟨wF.st, wF.trace ++ [Call.ftok c.path PROJ_ID]⟩) :=
    sys_ftok_posix (k_ftok_ok PROJ_ID hbF)
  rcases hg : sys_msgget posix (ftok_key i wF.st.dev PROJ_ID) (IPC_CREAT ||| to_u32 c.permissions)
      ⟨wF.st, wF.trace ++ [Call.ftok c.path PROJ_ID]⟩ with ⟨rg, wG⟩
  cases rg with
  | err e =>
    exfalso
    unfold create_msg_queue at h
    simp only [hcre, ne_eq, not_true_eq_false, if_false, hftok, hg] at h
    simp at h
  | ok id =>
    have hgk := sys_msgget_posix_inv hg
    simp only at hgk
    obtain ⟨fsG, q0, hq, _⟩ := k_msgget_inv hgk
    have hq0 : assoc wG.st.queues id = some q0 := ((queue_of_key_iff _ _ _ _).1 hq).2
    have hk0 : assoc wG.st.qkeys (ftok_key i wF.st.dev PROJ_ID) = some id :=
      ((queue_of_key_iff _ _ _ _).1 hq).1
    have hset : wants_owner c = true →
        (set_owner c q0).msg_perm.uid ≠ UNSET ∧ (set_owner c q0).msg_perm.gid ≠ UNSET := by
      intro hwo
      have hw : c.user_id ≠ UNSET ∨ c.group_id ≠ UNSET := by simpa [wants_owner] using hwo
      rcases k_msgctl_set_cases (set_owner c q0) hq0 with ⟨h1, h2, _⟩ | ⟨e, h3⟩
      · exact ⟨h1, h2⟩
      · exfalso
        have hstat : sys_msgctl_stat posix id wG
            = (Res.ok q0, ⟨wG.st, wG.trace ++ [Call.msgctl_stat id]⟩) :=
          sys_msgctl_stat_posix (k_msgctl_stat_ok hq0)
        have hsets : sys_msgctl_set posix id (set_owner c q0)
            ⟨wG.st, wG.trace ++ [Call.msgctl_stat id]⟩
            = (Res.err e, ⟨wG.st,
                wG.trace ++ [Call.msgctl_stat id] ++ [Call.msgctl_set id (set_owner c q0)]⟩) :=
          sys_msgctl_set_posix h3
        unfold create_msg_queue at h
        simp only [hcre, ne_eq, not_true_eq_false, if_false, hftok, hg, hw, if_true, hstat,
          hsets] at h
        simp at h
    obtain ⟨wH, hfin, hst⟩ := create_queue_fwd c w wF wG i id (file_final c n0) q0 hcre hbF hg hq0 hset
    have fsH : same_fs wG.st wH.st := by
      rw [hst]
      by_cases hwo : wants_owner c = true
      · simp only [hwo, if_true]; exact ⟨rfl, rfl, rfl, rfl, rfl, rfl, rfl, rfl⟩
      · simp only [hwo]; exact same_fs_refl _
    have fsFH : same_fs wF.st wH.st := by
      obtain ⟨a1, a2, a3, a4, a5, a6, a7, a8⟩ := fsG
      obtain ⟨b1, b2, b3, b4, b5, b6, b7, b8⟩ := fsH
      exact ⟨b1.trans a1, b2.trans a2, b3.trans a3, b4.trans a4, b5.trans a5, b6.trans a6,
        b7.trans a7, b8.trans a8⟩
    have eFH : ext wF.st wH.st := ext_of_same_fs fsFH
    have e1H : ext w1.st wH.st := ext_trans e12 (ext_trans e2F eFH)
    have hqH : queue_of_key wH.st (ftok_key i wF.st.dev PROJ_ID) = some (id, queue_final c q0) := by
      rw [queue_of_key_iff, hst]
      by_cases hwo : wants_owner c = true
      · simp only [hwo, if_true, queue_final]
        exact ⟨hk0, by simp [assoc_cons]⟩
      · simp only [hwo, queue_final]
        exact ⟨hk0, hq0⟩
    rw [hfin, hm, ho, hcre]
    simp only
    rw [← idev]
    refine ⟨hv1, hv2, hv3, mkdir_p_tokens_of_ok hm1, ext_trans e01 e1H,
      fun d hd => mkdir_exists_ext e1H d (t1 d hd), i, n0, id, q0, hb2,
      backing_same_fs fsFH hbF, fsFH.2.2.2.2.1, ?_, hqH, hset⟩
    rw [hgk]
    exact hq

theorem file_final_data (c : msg_queue_config) (n : Inode) : (file_final c n).data = n.data := by
  unfold file_final chown_inode chmod_inode
  split <;> rfl

theorem key_of_backing {s : Sys} {path : CStr} {i : Nat} {n : Inode} (h : backing s path i n) :
    key_of s path = some (ftok_key i s.dev PROJ_ID) := by
  unfold key_of
  rw [k_ftok_ok PROJ_ID h]

theorem msgflg_no_excl (p : Nat) (h : p &&& IPC_EXCL = 0) :
    (IPC_CREAT ||| p) &&& IPC_EXCL = 0 := by
  rw [Nat.and_distrib_right, h]
  decide

/-- In a state where the backing file and its queue exist, `create_msg_queue` succeeds and
reuses both. -/
theorem create_of_state (c : msg_queue_config) (w : World Sys) (i id : Nat) (n : Inode)
    (q : msqid_ds)
    (hv1 : (strstr c.path "..".toList).isSome = false)
    (hv2 : strncmp "/var/run/".toList c.path 9 = 0) (hv3 : ¬ c.path.length > PATH_MAX - 1)
    (hne : strtok_all c.path ≠ [])
    (ht : ∀ d ∈ mkdir_targets c.path, mkdir_exists w.st d)
    (hb : backing w.st c.path i n)
    (hq : queue_of_key w.st (ftok_key i w.st.dev PROJ_ID) = some (id, q))
    (hx : to_u32 c.permissions &&& IPC_EXCL = 0)
    (hset : wants_owner c = true →
      (set_owner c q).msg_perm.uid ≠ UNSET ∧ (set_owner c q).msg_perm.gid ≠ UNSET) :
    ∃ wH, create_msg_queue posix c w = (0, wH) ∧
      backing wH.st c.path i (file_final c n) ∧ wH.st.dev = w.st.dev ∧
      queue_of_key wH.st (ftok_key i w.st.dev PROJ_ID) = some (id, queue_final c q) ∧
      wH.st.qkeys = w.st.qkeys ∧
      (∀ j, (assoc wH.st.queues j).isSome = (assoc w.st.queues j).isSome) := by
  obtain ⟨w1, hm, hs1⟩ := mkdir_p_posix_again c.path w hne ht
  have hb1 : backing w1.st c.path i n := by rw [hs1]; exact hb
  have hin1 : assoc w1.st.inodes i = some n := by
    obtain ⟨t, _, _, _, _, h5, _⟩ := hb1
    exact h5
  have hkind : n.kind = Kind.reg := by
    obtain ⟨t, _, _, _, _, _, h6⟩ := hb
    exact h6
  have ho : sys_open posix c.path (O_CREAT ||| O_RDWR) (to_u32 c.permissions) w1
      = (Res.ok (fresh 2 w1.st.fds),
        ⟨{ w1.st with fds := (fresh 2 w1.st.fds, i) :: w1.st.fds },
          w1.trace ++ [Call.open_ c.path (O_CREAT ||| O_RDWR) (to_u32 c.permissions)]⟩) :=
    sys_open_posix (k_open_existing (to_u32 c.permissions) hb1)
  have hext2 : ext w1.st { w1.st with fds := (fresh 2 w1.st.fds, i) :: w1.st.fds } :=
    ⟨rfl, fun p n' hp => ⟨n', hp, rfl⟩⟩
  have hb2 : backing { w1.st with fds := (fresh 2 w1.st.fds, i) :: w1.st.fds } c.path i n :=
    backing_frame hext2 rfl hin1 hkind hb1
  obtain ⟨wF, hcre, hbF, _, i2F⟩ := create_file_fwd c w w1 _ (fresh 2 w1.st.fds) i n hv1 hv2 hv3
    hm ho hb2 (by simp [assoc_cons])
  have ipcF : same_ipc w.st wF.st := by
    have h12 : same_ipc w1.st
        ({ w1.st with fds := (fresh 2 w1.st.fds, i) :: w1.st.fds } : Sys) :=
      ⟨rfl, rfl, rfl, rfl, rfl, rfl, rfl⟩
    have := same_ipc_trans h12 i2F
    rw [hs1] at this
    exact this
  have hdev : wF.st.dev = w.st.dev := ipcF.2.2.1
  have hqF : queue_of_key wF.st (ftok_key i wF.st.dev PROJ_ID) = some (id, q) := by
    rw [queue_of_key_same_ipc ipcF, hdev]; exact hq
  have hg : sys_msgget posix (ftok_key i wF.st.dev PROJ_ID) (IPC_CREAT ||| to_u32 c.permissions)
      ⟨wF.st, wF.trace ++ [Call.ftok c.path PROJ_ID]⟩
      = (Res.ok id, ⟨wF.st, wF.trace ++ [Call.ftok c.path PROJ_ID] ++
          [Call.msgget (ftok_key i wF.st.dev PROJ_ID) (IPC_CREAT ||| to_u32 c.permissions)]⟩) :=
    sys_msgget_posix (k_msgget_existing hqF (msgflg_no_excl _ hx))
  have hq0 : assoc wF.st.queues id = some q := ((queue_of_key_iff _ _ _ _).1 hqF).2
  have hk0 : assoc wF.st.qkeys (ftok_key i wF.st.dev PROJ_ID) = some id :=
    ((queue_of_key_iff _ _ _ _).1 hqF).1
  obtain ⟨wH, hfin, hst⟩ := create_queue_fwd c w wF _ i id (file_final c n) q hcre hbF hg hq0 hset
  simp only at hst
  have fsH : same_fs wF.st wH.st := by
    rw [hst]
    by_cases hwo : wants_owner c = true
    · simp only [hwo, if_true]; exact ⟨rfl, rfl, rfl, rfl, rfl, rfl, rfl, rfl⟩
    · simp only [hwo]; exact same_fs_refl _
  have hkeys : wH.st.qkeys = wF.st.qkeys := by
    rw [hst]
    by_cases hwo : wants_owner c = true
    · simp only [hwo, if_true]
    · simp only [hwo]
      rfl
  refine ⟨wH, hfin, backing_same_fs fsH hbF, fsH.2.2.2.2.1.trans hdev, ?_, ?_, ?_⟩
  · rw [← hdev, queue_of_key_iff, hkeys]
    refine ⟨hk0, ?_⟩
    rw [hst]
    by_cases hwo : wants_owner c = true
    · simp [hwo, queue_final, assoc_cons]
    · simp only [hwo, queue_final]
      exact hq0
  · rw [hkeys]; exact ipcF.1
  · intro j
    rw [← ipcF.2.1, hst]
    by_cases hwo : wants_owner c = true
    · simp only [hwo, if_true, assoc_cons]
      by_cases hj : id = j
      · subst hj; simp [hq0]
      · simp [hj]
    · simp only [hwo]
      rfl

theorem delete_of_state (c : msg_queue_config) (w : World Sys) (i id : Nat) (n : Inode)
    (q : msqid_ds) (hb : backing w.st c.path i n)
    (hq : queue_of_key w.st (ftok_key i w.st.dev PROJ_ID) = some (id, q)) :
    ∃ wD, delete_msg_queue posix c w = (0, wD) ∧ file_at wD.st c.path = none ∧
      queue_of_key wD.st (ftok_key i w.st.dev PROJ_ID) = none := by
  have hftok : sys_ftok posix c.path PROJ_ID w
      = (Res.ok (ftok_key i w.st.dev PROJ_ID), ⟨w.st, w.trace ++ [Call.ftok c.path PROJ_ID]⟩) :=
    sys_ftok_posix (k_ftok_ok PROJ_ID hb)
  have hg : sys_msgget posix (ftok_key i w.st.dev PROJ_ID) 0
      ⟨w.st, w.trace ++ [Call.ftok c.path PROJ_ID]⟩
      = (Res.ok id, ⟨w.st, w.trace ++ [Call.ftok c.path PROJ_ID] ++
          [Call.msgget (ftok_key i w.st.dev PROJ_ID) 0]⟩) :=
    sys_msgget_posix (k_msgget_existing hq (by decide))
  have hq0 : assoc w.st.queues id = some q := ((queue_of_key_iff _ _ _ _).1 hq).2
  have hk0 : assoc w.st.qkeys (ftok_key i w.st.dev PROJ_ID) = some id :=
    ((queue_of_key_iff _ _ _ _).1 hq).1
  have hrm : sys_msgctl_rmid posix id
      ⟨w.st, w.trace ++ [Call.ftok c.path PROJ_ID] ++
          [Call.msgget (ftok_key i w.st.dev PROJ_ID) 0]⟩
      = (Res.ok (),
        ⟨{ w.st with queues := unbind id w.st.queues
                     qkeys := unbind q.msg_perm.key w.st.qkeys },
          w.trace ++ [Call.ftok c.path PROJ_ID] ++
            [Call.msgget (ftok_key i w.st.dev PROJ_ID) 0] ++ [Call.msgctl_rmid id]⟩) :=
    sys_msgctl_rmid_posix (k_msgctl_rmid_ok hq0)
  have hfs : same_fs w.st { w.st with queues := unbind id w.st.queues
                                      qkeys := unbind q.msg_perm.key w.st.qkeys } :=
    ⟨rfl, rfl, rfl, rfl, rfl, rfl, rfl, rfl⟩
  have hb3 := backing_same_fs hfs hb
  obtain ⟨s4, hrem, hfile, hipc⟩ := k_remove_ok hb3
  have hre : sys_remove posix c.path
      ⟨{ w.st with queues := unbind id w.st.queues
                   qkeys := unbind q.msg_perm.key w.st.qkeys },
        w.trace ++ [Call.ftok c.path PROJ_ID] ++
          [Call.msgget (ftok_key i w.st.dev PROJ_ID) 0] ++ [Call.msgctl_rmid id]⟩
      = (Res.ok (), ⟨s4, w.trace ++ [Call.ftok c.path PROJ_ID] ++
          [Call.msgget (ftok_key i w.st.dev PROJ_ID) 0] ++ [Call.msgctl_rmid id] ++
          [Call.remove c.path]⟩) :=
    sys_remove_posix hrem
  have hfin : delete_msg_queue posix c w
      = (0, ⟨s4, w.trace ++ [Call.ftok c.path PROJ_ID] ++
          [Call.msgget (ftok_key i w.st.dev PROJ_ID) 0] ++ [Call.msgctl_rmid id] ++
          [Call.remove c.path]⟩) := by
    unfold delete_msg_queue
    simp only [hftok, hg, hrm, hre]
  refine ⟨_, hfin, hfile, ?_⟩
  simp only
  rw [queue_of_key_same_ipc hipc]
  exact queue_gone_after_rmid w.st _ id q hk0

theorem set_owner_again (c : msg_queue_config) (q0 : msqid_ds)
    (h : (set_owner c q0).msg_perm.uid ≠ UNSET ∧ (set_owner c q0).msg_perm.gid ≠ UNSET) :
    (set_owner c (ipc_set q0 (set_owner c q0))).msg_perm.uid ≠ UNSET ∧
      (set_owner c (ipc_set q0 (set_owner c q0))).msg_perm.gid ≠ UNSET := by
  by_cases hu : c.user_id = UNSET <;> by_cases hg : c.group_id = UNSET <;>
    simp [set_owner, ipc_set, hu, hg] at h ⊢ <;> simp [h, hu, hg]

/-- C7: on the concrete kernel, if `create_msg_queue(cfg)` succeeds (from any state, so also
from one without the backing file and without a queue under its key) and `delete_msg_queue(cfg)`
is run on the resulting state, then delete returns 0 and the final state has no regular file at
`cfg.path` and no queue under the key that create used, which is the key of the file create
left. -/
theorem create_then_delete (c : msg_queue_config) (w : World Sys)
    (h : (create_msg_queue posix c w).1 = 0) :
    (delete_msg_queue posix c (create_msg_queue posix c w).2).1 = 0 ∧
    ∃ k, key_of (create_msg_queue posix c w).2.st c.path = some k ∧
      (queue_of_key (create_msg_queue posix c w).2.st k).isSome = true ∧
      (file_at (create_msg_queue posix c w).2.st c.path).isSome = true ∧
      file_at (delete_msg_queue posix c (create_msg_queue posix c w).2).2.st c.path = none ∧
      queue_of_key (delete_msg_queue posix c (create_msg_queue posix c w).2).2.st k = none := by
  obtain ⟨_, _, _, _, _, _, i, n0, id, q0, _, hb, hdev, _, hq, _⟩ := create_inv c w h
  rw [← hdev] at hq
  obtain ⟨wD, hfin, hf, hqd⟩ := delete_of_state c _ i id _ _ hb hq
  rw [hfin]
  refine ⟨rfl, _, key_of_backing hb, ?_, ?_, hf, hqd⟩
  · rw [hq]; rfl
  · rw [file_at_of_backing hb]; rfl

theorem create_then_delete_witness :
    (create_msg_queue posix cfg_svc world0).1 = 0 ∧
    (delete_msg_queue posix cfg_svc (create_msg_queue posix cfg_svc world0).2).1 = 0 ∧
    file_at (delete_msg_queue posix cfg_svc (create_msg_queue posix cfg_svc world0).2).2.st
      cfg_svc.path = none :=
  ⟨by decide, (create_then_delete cfg_svc world0 (by decide)).1, by decide⟩

/-- C8 (amended): on the concrete kernel, for a configuration whose permissions do not carry
the `IPC_EXCL` bit (0o2000; every value in 0..0o777 qualifies), if `create_msg_queue(cfg)`
succeeds then running it again on the resulting state succeeds too; the key of the backing
file and the queue identifier under it are the same, no key and no queue identifier is added,
and the backing file is still there with its contents unchanged. -/
theorem create_msg_queue_idempotent (c : msg_queue_config) (w : World Sys)
    (h : (create_msg_queue posix c w).1 = 0) (hx : to_u32 c.permissions &&& IPC_EXCL = 0) :
    (create_msg_queue posix c (create_msg_queue posix c w).2).1 = 0 ∧
    (∃ k id q1 q2 n1 n2,
      key_of (create_msg_queue posix c w).2.st c.path = some k ∧
      key_of (create_msg_queue posix c (create_msg_queue posix c w).2).2.st c.path = some k ∧
      queue_of_key (create_msg_queue posix c w).2.st k = some (id, q1) ∧
      queue_of_key (create_msg_queue posix c (create_msg_queue posix c w).2).2.st k
        = some (id, q2) ∧
      file_at (create_msg_queue posix c w).2.st c.path = some n1 ∧
      file_at (create_msg_queue posix c (create_msg_queue posix c w).2).2.st c.path = some n2 ∧
      n2.data = n1.data) ∧
    (create_msg_queue posix c (create_msg_queue posix c w).2).2.st.qkeys
      = (create_msg_queue posix c w).2.st.qkeys ∧
    (∀ j, (assoc (create_msg_queue posix c (create_msg_queue posix c w).2).2.st.queues j).isSome
      = (assoc (create_msg_queue posix c w).2.st.queues j).isSome) := by
  obtain ⟨hv1, hv2, hv3, hne, _, ht, i, n0, id, q0, _, hb, hdev, _, hq, hset⟩ := create_inv c w h
  rw [← hdev] at hq
  have hset2 : wants_owner c = true →
      (set_owner c (queue_final c q0)).msg_perm.uid ≠ UNSET ∧
        (set_owner c (queue_final c q0)).msg_perm.gid ≠ UNSET := by
    intro hwo
    have := set_owner_again c q0 (hset hwo)
    simpa [queue_final, hwo] using this
  obtain ⟨wH, hfin, hbH, hdevH, hqH, hkeys, hids⟩ :=
    create_of_state c (create_msg_queue posix c w).2 i id _ _ hv1 hv2 hv3 hne ht hb hq hx hset2
  rw [hfin]
  refine ⟨rfl, ⟨_, id, _, _, _, _, key_of_backing hb, ?_, hq, hqH, file_at_of_backing hb,
    file_at_of_backing hbH, file_final_data c _⟩, hkeys, hids⟩
  rw [key_of_backing hbH, hdevH]

theorem create_msg_queue_idempotent_witness :
    (create_msg_queue posix cfg_svc world0).1 = 0 ∧
    to_u32 cfg_svc.permissions &&& IPC_EXCL = 0 ∧
    (create_msg_queue posix cfg_svc (create_msg_queue posix cfg_svc world0).2).1 = 0 :=
  ⟨by decide, by decide, (create_msg_queue_idempotent cfg_svc world0 (by decide) (by decide)).1⟩

/-- C8 as stated fails: with the permissions 0o2644, which the loaders accept, the first
`create_msg_queue` succeeds and the second one fails, because `msgget` is then called with
`IPC_CREAT | IPC_EXCL` on an existing queue. -/
theorem create_msg_queue_not_idempotent :
    (create_msg_queue posix cfg_excl world0).1 = 0 ∧
    (create_msg_queue posix cfg_excl (create_msg_queue posix cfg_excl world0).2).1 = -1 := by
  decide

/-! ## Parent directories -/

theorem strtok_aux_no_delim (d : Char) (s : CStr) :
    ∀ acc : CStr, d ∉ acc → ∀ c ∈ strtok_aux d s acc, d ∉ c := by
  induction s with
  | nil =>
    intro acc hacc c hc
    by_cases h : acc = []
    · simp [strtok_aux, h] at hc
    · simp [strtok_aux, h] at hc
      rw [hc]; exact hacc
  | cons x xs ih =>
    intro acc hacc c hc
    unfold strtok_aux at hc
    by_cases hx : x = d
    · by_cases h : acc = []
      · simp [hx, h] at hc
        exact ih [] (by simp) c hc
      · simp [hx, h] at hc
        rcases hc with hc | hc
        · rw [hc]; exact hacc
        · exact ih [] (by simp) c hc
    · simp [hx] at hc
      refine ih (acc ++ [x]) ?_ c hc
      simp only [List.mem_append, List.mem_singleton, not_or]
      exact ⟨hacc, fun h => hx h.symm⟩

theorem strtok_join_slash (cs : List CStr) (h : ∀ c ∈ cs, c ≠ [] ∧ '/' ∉ c) :
    strtok_aux '/' (join_slash cs) [] = cs := by
  induction cs with
  | nil => simp [join_slash, strtok_aux]
  | cons c cs ih =>
    have hc := h c (List.mem_cons_self _ _)
    have hcs : ∀ c' ∈ cs, c' ≠ [] ∧ '/' ∉ c' := fun c' hc' => h c' (List.mem_cons_of_mem _ hc')
    unfold join_slash
    rw [strtok_aux_token '/' c (join_slash cs) hc.2 [] (by simpa using hc.1), ih hcs]
    simp

theorem join_slash_length (cs : List CStr) : (join_slash cs).length = total_len cs := by
  induction cs with
  | nil => rfl
  | cons c cs ih => simp [join_slash, total_len, ih]; omega

theorem total_len_take (cs : List CStr) (h : ∀ c ∈ cs, c ≠ []) :
    ∀ k, k < cs.length → total_len (cs.take k) + 2 ≤ total_len cs := by
  induction cs with
  | nil => intro k hk; simp at hk
  | cons c cs ih =>
    intro k hk
    have hc : 1 ≤ c.length := List.length_pos.2 (h c (List.mem_cons_self _ _))
    cases k with
    | zero => simp [total_len]; omega
    | succ k =>
      have := ih (fun c' hc' => h c' (List.mem_cons_of_mem _ hc')) k (by simpa using hk)
      simp only [List.take_succ_cons, total_len]
      omega

theorem dir_chain_aux_mem (cs : List CStr) :
    ∀ (pre q : CStr), q ∈ dir_chain_aux pre cs →
      ∃ k, 0 < k ∧ k < cs.length ∧ q = pre ++ join_slash (cs.take k) := by
  induction cs with
  | nil => intro pre q hq; simp [dir_chain_aux] at hq
  | cons c cs ih =>
    intro pre q hq
    cases cs with
    | nil => simp [dir_chain_aux] at hq
    | cons c' rest =>
      simp only [dir_chain_aux, List.mem_cons] at hq
      rcases hq with hq | hq
      · exact ⟨1, by omega, by simp, by simp [hq, join_slash]⟩
      · obtain ⟨k, hk0, hk1, hk2⟩ := ih (pre ++ c ++ ['/']) q hq
        refine ⟨k + 1, by omega, by simpa using hk1, ?_⟩
        rw [hk2]
        simp [join_slash]

theorem walk_append (s : Sys) (a b : List CStr) :
    ∀ (cur r : List CStr), walk s (a ++ b) cur = Res.ok r →
      ∃ m, walk s a cur = Res.ok m ∧ walk s b m = Res.ok r := by
  induction a with
  | nil => intro cur r h; exact ⟨cur, rfl, by simpa using h⟩
  | cons c cs ih =>
    intro cur r h
    rw [List.cons_append] at h
    by_cases h1 : c.length > NAME_MAX
    · rw [walk, if_pos h1] at h; simp at h
    · by_cases h2 : c = ['.']
      · have e : ∀ l, walk s (c :: l) cur = walk s l cur := fun l => by
          rw [walk, if_neg h1, if_pos h2]
        rw [e] at h ⊢
        exact ih _ _ h
      · by_cases h3 : c = ['.', '.']
        · by_cases h4 : dir_at s cur.dropLast = true
          · have e : ∀ l, walk s (c :: l) cur = walk s l cur.dropLast := fun l => by
              rw [walk, if_neg h1, if_neg h2, if_pos h3, if_pos h4]
            rw [e] at h ⊢
            exact ih _ _ h
          · rw [walk, if_neg h1, if_neg h2, if_pos h3, if_neg h4] at h; simp at h
        · cases hn : inode_at s (cur ++ [c]) with
          | none =>
            rw [walk, if_neg h1, if_neg h2, if_neg h3] at h
            simp [hn] at h
          | some n =>
            by_cases hk : n.kind = Kind.dir
            · have e : ∀ l, walk s (c :: l) cur = walk s l (cur ++ [c]) := fun l => by
                rw [walk, if_neg h1, if_neg h2, if_neg h3]
                simp only [hn]
                rw [if_pos hk]
              rw [e] at h ⊢
              exact ih _ _ h
            · rw [walk, if_neg h1, if_neg h2, if_neg h3] at h
              simp [hn, hk] at h

theorem walk_dir (s : Sys) (cs : List CStr) :
    ∀ (cur r : List CStr), dir_at s cur = true → walk s cs cur = Res.ok r →
      dir_at s r = true := by
  induction cs with
  | nil =>
    intro cur r hd h
    simp only [walk, Res.ok.injEq] at h
    rw [← h]; exact hd
  | cons c cs ih =>
    intro cur r hd h
    unfold walk at h
    by_cases h1 : c.length > NAME_MAX
    · simp [h1] at h
    · simp only [h1, if_false] at h
      by_cases h2 : c = ['.']
      · simp only [h2, if_true] at h
        exact ih _ _ hd h
      · simp only [h2, if_false] at h
        by_cases h3 : c = ['.', '.']
        · simp only [h3, if_true] at h
          by_cases h4 : dir_at s cur.dropLast = true
          · simp only [h4, if_true] at h
            exact ih _ _ h4 h
          · simp [h4] at h
        · simp only [h3, if_false] at h
          cases hn : inode_at s (cur ++ [c]) with
          | none => simp [hn] at h
          | some n =>
            simp only [hn] at h
            by_cases hk : n.kind = Kind.dir
            · simp only [hk, if_true] at h
              refine ih _ _ ?_ h
              simp [dir_at, hn, hk]
            · simp [hk] at h

theorem dir_at_root (s : Sys) : dir_at s [] = true := by
  simp [dir_at, inode_at, root_inode]

/-- An absolute path whose components can all be walked names a directory. -/
theorem is_dir_of_walk (s : Sys) (cs : List CStr) (r : List CStr) (hne : cs ≠ [])
    (hv : ∀ c ∈ cs, c ≠ [] ∧ '/' ∉ c) (hlen : ('/' :: join_slash cs).length < PATH_MAX)
    (hw : walk s cs [] = Res.ok r) : is_dir s ('/' :: join_slash cs) = true := by
  have htok : strtok_all ('/' :: join_slash cs) = cs := by
    unfold strtok_all
    rw [strtok_aux]
    simp only [if_true]
    exact strtok_join_slash cs hv
  have hsplit : cs = cs.dropLast ++ [cs.getLast hne] := (List.dropLast_append_getLast hne).symm
  rw [hsplit] at hw
  obtain ⟨m, hw1, hw2⟩ := walk_append s _ _ _ _ hw
  have hdm : dir_at s m = true := walk_dir s _ _ _ (dir_at_root s) hw1
  have hdr : dir_at s r = true := walk_dir s _ _ _ hdm hw2
  have hlast : cs.getLast? = some (cs.getLast hne) := List.getLast?_eq_getLast _ hne
  unfold is_dir resolve
  rw [if_neg (by simp), if_neg (by omega)]
  simp only [List.head?_cons, if_true, dir_at_root, htok, hw1, hlast]
  by_cases hdots : cs.getLast hne = ['.'] ∨ cs.getLast hne = ['.', '.']
  · simp only [hdots, if_true, hw2]
    simpa using hdr
  · simp only [hdots, if_false]
    have hw2' := hw2
    unfold walk at hw2'
    by_cases h1 : (cs.getLast hne).length > NAME_MAX
    · simp [h1] at hw2'
    · simp only [h1, if_false] at hw2' ⊢
      simp only [not_or] at hdots
      simp only [hdots.1, hdots.2, if_false] at hw2'
      cases hn : inode_at s (m ++ [cs.getLast hne]) with
      | none => simp [hn] at hw2'
      | some n =>
        simp only [hn] at hw2'
        by_cases hk : n.kind = Kind.dir
        · simp [dir_at, hn, hk]
        · simp [hk] at hw2'

theorem parents_are_dirs (s : Sys) (path : CStr) (i : Nat) (n : Inode)
    (hb : backing s path i n) (hpre : "/var/run/".toList <+: path) :
    ∀ q ∈ dir_chain (strtok_all path), is_dir s q = true := by
  intro q hq
  obtain ⟨t, hr, _⟩ := hb
  obtain ⟨_, hlen, _, d, hw, _⟩ := resolve_inv s path t hr
  have hhead : path.head? = some '/' := by
    obtain ⟨rest, hrest⟩ := hpre
    rw [← hrest]; rfl
  rw [hhead] at hw
  simp only [if_true] at hw
  obtain ⟨k, hk0, hk1, hk2⟩ := dir_chain_aux_mem _ _ _ hq
  have hq' : q = '/' :: join_slash ((strtok_all path).take k) := by rw [hk2]; rfl
  have hvalid : ∀ c ∈ strtok_all path, c ≠ [] ∧ '/' ∉ c := fun c hc =>
    ⟨strtok_aux_ne_nil '/' path [] c hc, strtok_aux_no_delim '/' path [] (by simp) c hc⟩
  have hne : (strtok_all path).take k ≠ [] := by
    intro h0
    rcases List.take_eq_nil_iff.1 h0 with h | h
    · omega
    · rw [h] at hk1; simp at hk1
  have hv : ∀ c ∈ (strtok_all path).take k, c ≠ [] ∧ '/' ∉ c := fun c hc =>
    hvalid c (List.mem_of_mem_take hc)
  have htot : total_len (strtok_all path) ≤ path.length + 1 := by
    simpa [strtok_all] using strtok_aux_total '/' path []
  have htk := total_len_take (strtok_all path) (fun c hc => (hvalid c hc).1) k hk1
  have hlen' : ('/' :: join_slash ((strtok_all path).take k)).length < PATH_MAX := by
    simp only [List.length_cons, join_slash_length]
    omega
  have hsplit : (strtok_all path).dropLast
      = (strtok_all path).take k ++ ((strtok_all path).dropLast).drop k := by
    have h1 : ((strtok_all path).dropLast).take k = (strtok_all path).take k := by
      rw [List.dropLast_eq_take, List.take_take]
      congr 1
      omega
    rw [← h1, List.take_append_drop]
  rw [hsplit] at hw
  obtain ⟨m, hw1, _⟩ := walk_append s _ _ _ _ hw
  rw [hq']
  exact is_dir_of_walk s _ m hne hv hlen' hw1

theorem to_u32_mode (p : Int) (h0 : 0 ≤ p) (h1 : p ≤ 0o777) :
    ((to_u32 p : Nat) : Int) = p ∧ to_u32 p ≤ 0o777 := by
  unfold to_u32
  have : p % 4294967296 = p := Int.emod_eq_of_lt h0 (by omega)
  rw [this]
  constructor
  · exact Int.toNat_of_nonneg h0
  · omega

theorem file_final_fields (c : msg_queue_config) (n0 : Inode) (h0 : 0 ≤ c.permissions)
    (h1 : c.permissions ≤ 0o777) :
    ((file_final c n0).mode : Int) = c.permissions ∧
    (file_final c n0).uid = (if c.user_id ≠ UNSET then c.user_id else n0.uid) ∧
    (file_final c n0).gid = (if c.group_id ≠ UNSET then c.group_id else n0.gid) ∧
    (file_final c n0).data = n0.data := by
  obtain ⟨e1, e2⟩ := to_u32_mode c.permissions h0 h1
  have hm : to_u32 c.permissions % 0o10000 = to_u32 c.permissions := Nat.mod_eq_of_lt (by omega)
  have hc : chown_mode (to_u32 c.permissions) = to_u32 c.permissions := by
    unfold chown_mode
    split
    · exact Nat.mod_eq_of_lt (by omega)
    · exact Nat.mod_eq_of_lt (by omega)
  refine ⟨?_, ?_, ?_, file_final_data c n0⟩
  · unfold file_final
    by_cases hw : wants_owner c = true
    · simp only [hw, if_true, chown_inode, chmod_inode, hm]
      split
      · rw [hc]; exact e1
      · exact e1
    · simp only [hw, chmod_inode, hm]
      exact e1
  · unfold file_final
    by_cases hu : c.user_id = UNSET <;> by_cases hg : c.group_id = UNSET <;>
      simp [wants_owner, chown_inode, chmod_inode, hu, hg]
  · unfold file_final
    by_cases hu : c.user_id = UNSET <;> by_cases hg : c.group_id = UNSET <;>
      simp [wants_owner, chown_inode, chmod_inode, hu, hg]

theorem queue_final_fields (c : msg_queue_config) (q0 : msqid_ds) :
    (queue_final c q0).msg_perm.uid
      = (if c.user_id ≠ UNSET then c.user_id else q0.msg_perm.uid) ∧
    (queue_final c q0).msg_perm.gid
      = (if c.group_id ≠ UNSET then c.group_id else q0.msg_perm.gid) ∧
    (queue_final c q0).msg_perm.key = q0.msg_perm.key ∧
    (queue_final c q0).msg_perm.cuid = q0.msg_perm.cuid ∧
    (queue_final c q0).msg_perm.cgid = q0.msg_perm.cgid ∧
    (queue_final c q0).msg_perm.mode % 0o1000 = q0.msg_perm.mode % 0o1000 ∧
    (queue_final c q0).msg_qnum = q0.msg_qnum ∧
    (queue_final c q0).msg_qbytes = q0.msg_qbytes := by
  unfold queue_final
  by_cases hu : c.user_id = UNSET <;> by_cases hg : c.group_id = UNSET <;>
    simp [wants_owner, set_owner, ipc_set, hu, hg]

/-- C6: on the concrete kernel, for a configuration with permissions in 0..0o777, when
`create_msg_queue` returns 0: every parent directory of `path` is a directory; a regular file
exists at `path` whose mode is exactly `permissions`, whose owner and group are the configured
ones where set and those of the file as `open` found or created it where unset, and whose
contents are untouched; and under the key derived from that file a queue exists, the one
`msgget` found or created, with owner and group replaced where set and key, creator ids,
permission bits, message count and `msg_qbytes` as `msgget` left them. -/
theorem create_msg_queue_postcondition (c : msg_queue_config) (w : World Sys)
    (hp : 0 ≤ c.permissions ∧ c.permissions ≤ 0o777)
    (h : (create_msg_queue posix c w).1 = 0) :
    (∀ d ∈ dir_chain (strtok_all c.path), is_dir (create_msg_queue posix c w).2.st d = true) ∧
    (∃ n0 n,
      file_at (sys_open posix c.path (O_CREAT ||| O_RDWR) (to_u32 c.permissions)
        (mkdir_p posix c.path w).2).2.st c.path = some n0 ∧
      file_at (create_msg_queue posix c w).2.st c.path = some n ∧
      (n.mode : Int) = c.permissions ∧
      n.uid = (if c.user_id ≠ UNSET then c.user_id else n0.uid) ∧
      n.gid = (if c.group_id ≠ UNSET then c.group_id else n0.gid) ∧
      n.data = n0.data) ∧
    (∃ k id q0 q,
      key_of (create_msg_queue posix c w).2.st c.path = some k ∧
      queue_of_key (k_msgget k (IPC_CREAT ||| to_u32 c.permissions)
        (create_msg_queue_file posix c.path c.permissions c.user_id c.group_id w).2.st).2 k
        = some (id, q0) ∧
      queue_of_key (create_msg_queue posix c w).2.st k = some (id, q) ∧
      q.msg_perm.uid = (if c.user_id ≠ UNSET then c.user_id else q0.msg_perm.uid) ∧
      q.msg_perm.gid = (if c.group_id ≠ UNSET then c.group_id else q0.msg_perm.gid) ∧
      q.msg_perm.key = q0.msg_perm.key ∧
      q.msg_perm.cuid = q0.msg_perm.cuid ∧
      q.msg_perm.cgid = q0.msg_perm.cgid ∧
      q.msg_perm.mode % 0o1000 = q0.msg_perm.mode % 0o1000 ∧
      q.msg_qnum = q0.msg_qnum ∧
      q.msg_qbytes = q0.msg_qbytes) := by
  obtain ⟨_, hv2, _, _, _, _, i, n0, id, q0, hb0, hb, hdev, hq0, hq, _⟩ := create_inv c w h
  have hpre : "/var/run/".toList <+: c.path := (strncmp_policy_root c.path).1 hv2
  obtain ⟨f1, f2, f3, f4⟩ := file_final_fields c n0 hp.1 hp.2
  obtain ⟨g1, g2, g3, g4, g5, g6, g7, g8⟩ := queue_final_fields c q0
  refine ⟨parents_are_dirs _ c.path i _ hb hpre,
    ⟨n0, file_final c n0, file_at_of_backing hb0, file_at_of_backing hb, f1, f2, f3, f4⟩,
    ⟨ftok_key i w.st.dev PROJ_ID, id, q0, queue_final c q0, ?_, hq0, hq,
      g1, g2, g3, g4, g5, g6, g7, g8⟩⟩
  rw [key_of_backing hb, hdev]

theorem create_msg_queue_postcondition_witness :
    (0 ≤ cfg_svc.permissions ∧ cfg_svc.permissions ≤ 0o777) ∧
    (create_msg_queue posix cfg_svc world0).1 = 0 ∧
    dir_chain (strtok_all cfg_svc.path)
      = ["/var/".toList, "/var/run/".toList, "/var/run/app/".toList] ∧
    (∀ d ∈ dir_chain (strtok_all cfg_svc.path),
      is_dir (create_msg_queue posix cfg_svc world0).2.st d = true) ∧
    file_at (create_msg_queue posix cfg_svc world0).2.st cfg_svc.path
      = some ⟨Kind.reg, 0o660, 990, 991, []⟩ ∧
    queue_of_key (create_msg_queue posix cfg_svc world0).2.st (ftok_key 6 1 PROJ_ID)
      = some (1, ⟨⟨ftok_key 6 1 PROJ_ID, 990, 991, 0, 0, 0o660⟩, 0, MSGMNB⟩) :=
  ⟨by decide, by decide, by decide,
    (create_msg_queue_postcondition cfg_svc world0 (by decide) (by decide)).1,
    by decide, by decide⟩

end ManageQueue
